import Mathlib

/-!
Verification of the Junk Mover pipeline (`src/Junk_Mover/junk_mover.py`).

The pipeline moves aged tracks from a source playlist into year-bucketed
"Junk Drawer" playlists through a remote music-service API.  The pure
helpers of the script (`chunked`, `iso_to_date`,
`group_tracks_by_year_suffix`, the aging filter of `main`, `require_env`
and the duration parsing) are embedded as executable Lean functions, and
the effectful part of `main` is embedded as a function over an explicit
remote-service state together with a trace of the successfully executed
API requests; each request consults an oracle deciding whether the remote
call succeeds, and a failing request aborts the run exactly as an uncaught
Python exception does.
-/

/-! ### Calendar dates

`datetime.date` values compare lexicographically by (year, month, day). -/

/-- Calendar date, mirroring `datetime.date`. -/
structure Date where
  year : Nat
  month : Nat
  day : Nat
deriving DecidableEq, Repr

/-- Lexicographic order on dates, mirroring `datetime.date.__le__`. -/
def Date.leB (a b : Date) : Bool :=
  decide (a.year < b.year) ||
    (decide (a.year = b.year) &&
      (decide (a.month < b.month) ||
        (decide (a.month = b.month) && decide (a.day ≤ b.day))))

/-- Leap-year test of the proleptic Gregorian calendar used by `datetime`. -/
def isLeapYear (y : Nat) : Bool :=
  (y % 4 == 0 && y % 100 != 0) || y % 400 == 0

/-- Number of days in a month, as used by `datetime.date` arithmetic. -/
def daysInMonth (y m : Nat) : Nat :=
  if m = 2 then (if isLeapYear y then 29 else 28)
  else if m = 4 ∨ m = 6 ∨ m = 9 ∨ m = 11 then 30
  else 31

/-- The day before a given date, mirroring `date - timedelta(days=1)`. -/
def prevDay (d : Date) : Date :=
  if 1 < d.day then { d with day := d.day - 1 }
  else if 1 < d.month then
    { year := d.year, month := d.month - 1, day := daysInMonth d.year (d.month - 1) }
  else { year := d.year - 1, month := 12, day := 31 }

/-- Date subtraction `date - timedelta(days=n)`, used by `main` to compute
`cutoff_date = dt.date.today() - dt.timedelta(days=duration_days)`. -/
def subDays (d : Date) : Nat → Date
  | 0 => d
  | n + 1 => subDays (prevDay d) n

/-! ### ISO-8601 timestamp parsing (`iso_to_date`)

The source normalizes Spotify timestamps such as `"2025-11-29T12:34:56Z"`
by stripping trailing `Z` characters (`rstrip("Z")`) and passing the rest
to `datetime.datetime.fromisoformat`, keeping only the `.date()` part.
We model the `YYYY-MM-DD[THH:MM:SS[.fff...]]` shapes the Spotify API
emits; a string `fromisoformat` rejects is modelled as `none`, which the
pipeline turns into a fatal error exactly as the uncaught `ValueError`
would be. -/

/-- Strip all trailing `Z` characters, mirroring `str.rstrip("Z")`. -/
def rstripZ (cs : List Char) : List Char :=
  (cs.reverse.dropWhile (· == 'Z')).reverse

/-- Read a fixed block of decimal digits, failing on a non-digit. -/
def parseNatDigits : List Char → Nat → Option Nat
  | [], acc => some acc
  | c :: rest, acc =>
    if c.isDigit then parseNatDigits rest (acc * 10 + (c.toNat - 48)) else none

/-- Validate the optional fractional-second tail of a timestamp. -/
def validFraction : List Char → Bool
  | [] => false
  | cs => cs.all Char.isDigit

/-- Validate the time-of-day part accepted by `fromisoformat` after the
date: empty, or `THH:MM:SS` optionally followed by `.` and digits. -/
def validTimePart : List Char → Bool
  | [] => true
  | 'T' :: h1 :: h2 :: ':' :: m1 :: m2 :: ':' :: s1 :: s2 :: rest =>
    [h1, h2, m1, m2, s1, s2].all Char.isDigit &&
      (match parseNatDigits [h1, h2] 0, parseNatDigits [m1, m2] 0,
             parseNatDigits [s1, s2] 0 with
       | some h, some mi, some se => h < 24 && mi < 60 && se < 60
       | _, _, _ => false) &&
      (match rest with
       | [] => true
       | '.' :: frac => validFraction frac
       | _ => false)
  | _ => false

/-- Convert an ISO 8601 timestamp (with trailing `Z`) to a date,
mirroring `iso_to_date`; `none` models the `ValueError` raised by
`datetime.fromisoformat` on malformed input. -/
def iso_to_date (iso_ts : String) : Option Date :=
  match rstripZ iso_ts.data with
  | y1 :: y2 :: y3 :: y4 :: '-' :: m1 :: m2 :: '-' :: d1 :: d2 :: rest =>
    match parseNatDigits [y1, y2, y3, y4] 0, parseNatDigits [m1, m2] 0,
          parseNatDigits [d1, d2] 0 with
    | some y, some m, some d =>
      if 1 ≤ y && 1 ≤ m && m ≤ 12 && 1 ≤ d && d ≤ daysInMonth y m &&
          validTimePart rest then
        some ⟨y, m, d⟩
      else none
    | _, _, _ => none
  | _ => none

/-! ### Batch chunking (`chunked`) -/

/-- Fuel-indexed loop of `chunked`; the fuel only bounds the number of
slices and is always called with enough (`seq.length`). -/
def chunkedAux : Nat → List String → Nat → List (List String)
  | 0, _, _ => []
  | fuel + 1, seq, size =>
    if seq.isEmpty then []
    else if size = 0 then []
    else seq.take size :: chunkedAux fuel (seq.drop size) size

/-- Yield sequential slices of at most `size` elements, mirroring
`chunked`: `for i in range(0, len(seq), size): yield seq[i : i + size]`.
(Python raises `ValueError` for `size = 0`; the pipeline only ever uses
`size = 100`.) -/
def chunked (seq : List String) (size : Nat) : List (List String) :=
  chunkedAux seq.length seq size

/-! ### Bucketing (`group_tracks_by_year_suffix`) -/

/-- Render `n` in decimal padded with zeros to width two, mirroring the
format specifier in `f"{added_date.year % 100:02d}"`. -/
def format02d (n : Nat) : String :=
  if n < 10 then "0" ++ Nat.repr n else Nat.repr n

/-- Decode a decimal digit string, used to state that the bucket key
renders the year suffix in decimal. -/
def decodeDecimal (s : String) : Option Nat :=
  match s.data with
  | [] => none
  | cs => parseNatDigits cs 0

/-- Append a value to the bucket with the given key, creating the bucket
at the end if no bucket has the key; this mirrors
`buckets.setdefault(key, []).append(x)` on an insertion-ordered dict. -/
def insertBucket : List (String × List (String × Date)) → String →
    (String × Date) → List (String × List (String × Date))
  | [], key, x => [(key, [x])]
  | (k, xs) :: rest, key, x =>
    if k = key then (k, xs ++ [x]) :: rest
    else (k, xs) :: insertBucket rest key x

/-- Group `(uri, added_date)` pairs by two-digit year suffix, mirroring
`group_tracks_by_year_suffix`. -/
def group_tracks_by_year_suffix (tracks : List (String × Date)) :
    List (String × List (String × Date)) :=
  tracks.foldl (fun buckets p => insertBucket buckets (format02d (p.2.year % 100)) p) []

/-! ### Track items and the aging filter of `main` -/

/-- The `"track"` sub-object of a playlist item; Spotify may omit the URI
(for example for local or removed tracks). -/
structure Track where
  uri : Option String
deriving DecidableEq, Repr

/-- A playlist item record as enumerated from the source playlist;
either field may be missing (`None`) in the API response. -/
structure Item where
  added_at : Option String
  track : Option Track
deriving DecidableEq, Repr

/-- The URI of an item, mirroring `(item.get("track") or {}).get("uri")`. -/
def itemUri (it : Item) : Option String :=
  (it.track.getD { uri := none }).uri

/-- Python truthiness of an optional string: `None` and `""` are falsy. -/
def truthyStr : Option String → Bool
  | none => false
  | some s => !(s == "")

/-- Whether the candidate loop of `main` keeps an item at all, mirroring
the guard `if not (added_at and uri): continue`. -/
def hasRequiredFields (it : Item) : Bool :=
  truthyStr it.added_at && truthyStr (itemUri it)

/-- The candidate-collection loop of `main`: walk the source items,
silently skip items with a missing/empty timestamp or URI, parse the
timestamp and keep `(uri, added_date)` when the added date is on or
before the cutoff.  A timestamp `fromisoformat` rejects aborts the run
(`.error`), exactly as the uncaught `ValueError` would. -/
def collectCandidatesE (cutoff : Date) : List Item → Except String (List (String × Date))
  | [] => .ok []
  | it :: rest =>
    match it.added_at, itemUri it with
    | some ts, some u =>
      if ts = "" ∨ u = "" then collectCandidatesE cutoff rest
      else
        match iso_to_date ts with
        | some d =>
          if Date.leB d cutoff then
            (collectCandidatesE cutoff rest).map (fun l => (u, d) :: l)
          else collectCandidatesE cutoff rest
        | none => .error "Invalid isoformat string"
    | _, _ => collectCandidatesE cutoff rest

/-! ### Configuration loading (`require_env` and the duration parsing) -/

/-- The required configuration keys listed in `main`. -/
def requiredKeys : List String :=
  ["JUNK_MOVER_CLIENT_ID", "JUNK_MOVER_CLIENT_SECRET", "JUNK_MOVER_REFRESH_TOKEN",
   "JUNK_MOVER_SOURCE_PLAYLIST", "JUNK_MOVER_DURATION_DAYS"]

/-- The message of the `ValueError` raised by `require_env`. -/
def missingEnvMessage (missing : List String) : String :=
  "Missing environment variables: " ++ String.intercalate ", " missing ++ ". Fill them in .env."

/-- Ensure all required environment variables are populated, mirroring
`require_env`: every missing (unset or empty) key is collected and all of
them are reported together in one error. -/
def require_env (env : String → Option String) (keys : List String) : Except String Unit :=
  let missing := keys.filter (fun k => !truthyStr (env k))
  if missing.isEmpty then .ok () else .error (missingEnvMessage missing)

/-- Whitespace-strip both ends of a string, as `int()` does. -/
def stripWs (cs : List Char) : List Char :=
  ((cs.dropWhile Char.isWhitespace).reverse.dropWhile Char.isWhitespace).reverse

/-- Validity of the digit body accepted by `int()`: decimal digits with
single underscores allowed only between digits.  The flag records whether
the previous character was a digit. -/
def validIntDigits : List Char → Bool → Bool
  | [], prev => prev
  | c :: rest, prev =>
    if c.isDigit then validIntDigits rest true
    else if c = '_' then prev && validIntDigits rest false
    else false

/-- Integer parsing mirroring Python `int(str)` (ASCII digits, optional
sign, surrounding whitespace, underscore digit grouping); `none` models
the `ValueError`. -/
def parsePyInt (s : String) : Option Int :=
  let cs := stripWs s.data
  let signBody : Int × List Char :=
    match cs with
    | '+' :: rest => (1, rest)
    | '-' :: rest => (-1, rest)
    | _ => (1, cs)
  if validIntDigits signBody.2 false then
    some (signBody.1 *
      Int.ofNat ((signBody.2.filter Char.isDigit).foldl
        (fun acc c => acc * 10 + (c.toNat - 48)) 0))
  else none

/-- The validated configuration extracted from the environment. -/
structure Config where
  sourcePlaylistName : String
  durationDays : Nat
deriving DecidableEq, Repr

/-- The configuration phase of `main`: `require_env` over the required
keys, then parsing of `JUNK_MOVER_DURATION_DAYS`, rejecting non-integer
and negative values (0 is accepted). -/
def validateConfig (env : String → Option String) : Except String Config :=
  match require_env env requiredKeys with
  | .error e => .error e
  | .ok _ =>
    match parsePyInt ((env "JUNK_MOVER_DURATION_DAYS").getD "") with
    | none => .error "JUNK_MOVER_DURATION_DAYS must be an integer"
    | some v =>
      if v < 0 then .error "JUNK_MOVER_DURATION_DAYS cannot be negative; use 0 for today."
      else .ok { sourcePlaylistName := (env "JUNK_MOVER_SOURCE_PLAYLIST").getD ""
                 durationDays := v.toNat }

/-! ### The remote-service state and the effect model of `main`

The remote API is modelled as an explicit state (the playlists of the
authenticated user) together with a trace of the successfully executed
requests.  Every `spotify_request` consults an oracle deciding whether
the remote call succeeds; a failing request aborts the run with an error
while keeping the state and trace accumulated so far, exactly as the
uncaught `RuntimeError` of the script leaves the already committed
remote mutations in place. -/

/-- A playlist as held by the remote service. -/
structure Playlist where
  id : String
  name : String
  owner : String
  description : String
  items : List Item
  isPublic : Bool
deriving DecidableEq, Repr

/-- The remote-service state: the authenticated user and their
playlists; `nextId` generates fresh playlist identifiers. -/
structure SpotifyState where
  userId : String
  playlists : List Playlist
  nextId : Nat
deriving DecidableEq, Repr

/-- One successfully executed API request, as recorded in the trace. -/
inductive ApiAction where
  | tokenRequest
  | getUserRequest
  | playlistsPage (offset : Nat)
  | itemsPage (pid : String) (offset : Nat)
  | createPlaylist (userId name description : String)
  | addTracks (pid : String) (uris : List String)
  | removeTracks (pid : String) (uris : List String)
  | updateDescription (pid : String) (description : String)
deriving DecidableEq, Repr

/-- Whether an action mutates the remote state (collection creation,
track addition or removal, description update). -/
def ApiAction.isMutation : ApiAction → Bool
  | .createPlaylist _ _ _ => true
  | .addTracks _ _ => true
  | .removeTracks _ _ => true
  | .updateDescription _ _ => true
  | _ => false

/-- The running state of one pipeline invocation: remote state plus the
trace of successfully executed requests. -/
abbrev RunState := SpotifyState × List ApiAction

/-- The effect monad of the pipeline: state and trace threading with
abort-on-error (an error keeps the state reached so far, like an
uncaught Python exception leaves the remote mutations committed). -/
def M (α : Type) : Type := RunState → Except String α × RunState

/-- Lift a value, mirroring ordinary control flow. -/
def M.pure (a : α) : M α := fun rs => (.ok a, rs)

/-- Sequence two effectful steps, aborting on error. -/
def M.bind (x : M α) (f : α → M β) : M β := fun rs =>
  match x rs with
  | (.ok a, rs1) => f a rs1
  | (.error e, rs1) => (.error e, rs1)

instance : Monad M where
  pure := M.pure
  bind := M.bind

/-- Raise a fatal error, mirroring an uncaught Python exception. -/
def M.throw (e : String) : M α := fun rs => (.error e, rs)

/-- Read the current remote state (used only to size pagination fuel;
the fuel never changes observable behaviour). -/
def M.getState : M SpotifyState := fun rs => (.ok rs.1, rs)

/-- Perform one remote request, mirroring `spotify_request`: the oracle
decides success; on success the state transformer `op` is applied and
the action is appended to the trace, on failure the run aborts with the
state unchanged. -/
def spotify_request (oracle : ApiAction → Bool) (a : ApiAction)
    (op : SpotifyState → α × SpotifyState) : M α := fun rs =>
  if oracle a then
    ((.ok (op rs.1).1), ((op rs.1).2, rs.2 ++ [a]))
  else (.error "Spotify API error", rs)

/-! ### State transformers of the individual endpoints -/

/-- An item as appended by the add-tracks endpoint.  The remote service
records its own `added_at` timestamp, which this pipeline never reads
back within a run; it is left unmodelled. -/
def addedItem (u : String) : Item := { added_at := none, track := some { uri := some u } }

/-- Append the given URIs to the playlist with the given id. -/
def stateAddUris (s : SpotifyState) (pid : String) (uris : List String) : SpotifyState :=
  { s with playlists := s.playlists.map (fun p =>
      if p.id == pid then { p with items := p.items ++ uris.map addedItem } else p) }

/-- Remove every occurrence of each given URI from the playlist with the
given id, mirroring the remove-tracks endpoint. -/
def stateRemoveUris (s : SpotifyState) (pid : String) (uris : List String) : SpotifyState :=
  { s with playlists := s.playlists.map (fun p =>
      if p.id == pid then
        { p with items := p.items.filter (fun it => !(uris.any (fun u => itemUri it == some u))) }
      else p) }

/-- Overwrite the description of the playlist with the given id. -/
def stateSetDescription (s : SpotifyState) (pid desc : String) : SpotifyState :=
  { s with playlists := s.playlists.map (fun p =>
      if p.id == pid then { p with description := desc } else p) }

/-- Identifier the remote service assigns to the next created playlist. -/
def newPlaylistId (s : SpotifyState) : String := "pl" ++ Nat.repr s.nextId

/-- The playlist record the create-playlist endpoint stores: private, empty,
owned by the caller, with the requested name and description. -/
def newPlaylist (s : SpotifyState) (owner name desc : String) : Playlist :=
  { id := newPlaylistId s, name := name, owner := owner, description := desc
    items := [], isPublic := false }

/-- Create a new private playlist owned by the given user, mirroring the
create-playlist endpoint with a body of name, description and public False. -/
def stateCreate (s : SpotifyState) (owner name desc : String) : SpotifyState × String :=
  ({ s with
      playlists := s.playlists ++ [newPlaylist s owner name desc]
      nextId := s.nextId + 1 },
   newPlaylistId s)

/-- Items of the playlist with the given id (as the item-listing
endpoint returns them). -/
def itemsOf (s : SpotifyState) (pid : String) : List Item :=
  match s.playlists.find? (fun p => p.id == pid) with
  | some p => p.items
  | none => []

/-- Whether the playlist with the given id currently contains an item
with the given track URI. -/
def SpotifyState.plHasUri (s : SpotifyState) (pid u : String) : Bool :=
  match s.playlists.find? (fun p => p.id == pid) with
  | some p => p.items.any (fun it => itemUri it == some u)
  | none => false

/-- Whether some playlist with the given id exists. -/
def hasId (s : SpotifyState) (pid : String) : Bool :=
  s.playlists.any (fun p => p.id == pid)

/-! ### The API helpers of the script -/

/-- Exchange the refresh token for a bearer token (`fetch_access_token`);
only its success or failure is observable to the pipeline. -/
def fetch_access_token (oracle : ApiAction → Bool) : M String :=
  spotify_request oracle .tokenRequest (fun s => ("access_token", s))

/-- Fetch the authenticated user's profile (`get_current_user`),
yielding the user id. -/
def get_current_user (oracle : ApiAction → Bool) : M String :=
  spotify_request oracle .getUserRequest (fun s => (s.userId, s))

/-- One page of the playlist listing: 50 playlists starting at `offset`,
plus the "next page exists" indicator. -/
def playlistPage (s : SpotifyState) (offset : Nat) : List Playlist × Bool :=
  ((s.playlists.drop offset).take 50, decide (offset + 50 < s.playlists.length))

/-- The paging loop of `paginate_playlists` as consumed lazily by
`find_playlist_by_name_owner`: request pages of 50 and stop at the first
playlist matching name and owner, following `next` otherwise.  The fuel
only bounds the loop and is always supplied large enough. -/
def findPlaylistAux (oracle : ApiAction → Bool) (ownerId targetName : String) :
    Nat → Nat → M (Option Playlist)
  | _, 0 => M.pure none
  | offset, fuel + 1 => do
    let page ← spotify_request oracle (.playlistsPage offset) (fun s => (playlistPage s offset, s))
    match page.1.find? (fun p => p.name == targetName && p.owner == ownerId) with
    | some p => M.pure (some p)
    | none =>
      if page.2 then findPlaylistAux oracle ownerId targetName (offset + 50) fuel
      else M.pure none

/-- Locate a playlist by exact name owned by the given user
(`find_playlist_by_name_owner`): linear scan of the paginated listing,
first match wins. -/
def find_playlist_by_name_owner (oracle : ApiAction → Bool)
    (ownerId targetName : String) : M (Option Playlist) := do
  let s ← M.getState
  findPlaylistAux oracle ownerId targetName 0 (s.playlists.length + 1)

/-- One page of the item listing of a playlist: 100 items from `offset`
plus the "next page exists" indicator. -/
def itemPage (s : SpotifyState) (pid : String) (offset : Nat) : List Item × Bool :=
  (((itemsOf s pid).drop offset).take 100, decide (offset + 100 < (itemsOf s pid).length))

/-- The paging loop of `paginate_playlist_items`: pages of 100 items,
following `next` until exhausted. -/
def paginateItemsAux (oracle : ApiAction → Bool) (pid : String) :
    Nat → Nat → M (List Item)
  | _, 0 => M.pure []
  | offset, fuel + 1 => do
    let page ← spotify_request oracle (.itemsPage pid offset) (fun s => (itemPage s pid offset, s))
    if page.2 then do
      let rest ← paginateItemsAux oracle pid (offset + 100) fuel
      M.pure (page.1 ++ rest)
    else M.pure page.1

/-- Yield every item of the given playlist (`paginate_playlist_items`). -/
def paginate_playlist_items (oracle : ApiAction → Bool) (pid : String) : M (List Item) := do
  let s ← M.getState
  paginateItemsAux oracle pid 0 ((itemsOf s pid).length + 1)

/-- Return the id of the named Junk Drawer playlist, creating it if
absent (`ensure_junk_drawer_playlist`). -/
def ensure_junk_drawer_playlist (oracle : ApiAction → Bool)
    (userId name description : String) : M String := do
  let existing ← find_playlist_by_name_owner oracle userId name
  match existing with
  | some p => M.pure p.id
  | none =>
    spotify_request oracle (.createPlaylist userId name description)
      (fun s => ((stateCreate s userId name description).2, (stateCreate s userId name description).1))

/-- The batch loop of `add_tracks_to_playlist` over the precomputed
chunks: one request per chunk, sequentially. -/
def addChunks (oracle : ApiAction → Bool) (pid : String) : List (List String) → M Unit
  | [] => M.pure ()
  | c :: cs => do
    let _ ← spotify_request oracle (.addTracks pid c) (fun s => ((), stateAddUris s pid c))
    addChunks oracle pid cs

/-- Add the given track URIs to a playlist in batches of 100
(`add_tracks_to_playlist`). -/
def add_tracks_to_playlist (oracle : ApiAction → Bool) (pid : String)
    (uris : List String) : M Unit :=
  addChunks oracle pid (chunked uris 100)

/-- The batch loop of `remove_tracks_from_playlist` over the chunks. -/
def removeChunks (oracle : ApiAction → Bool) (pid : String) : List (List String) → M Unit
  | [] => M.pure ()
  | c :: cs => do
    let _ ← spotify_request oracle (.removeTracks pid c) (fun s => ((), stateRemoveUris s pid c))
    removeChunks oracle pid cs

/-- Remove the given track URIs from a playlist in batches of 100
(`remove_tracks_from_playlist`). -/
def remove_tracks_from_playlist (oracle : ApiAction → Bool) (pid : String)
    (uris : List String) : M Unit :=
  removeChunks oracle pid (chunked uris 100)

/-- Overwrite a playlist's description (`update_playlist_description`). -/
def update_playlist_description (oracle : ApiAction → Bool) (pid desc : String) : M Unit :=
  spotify_request oracle (.updateDescription pid desc)
    (fun s => ((), stateSetDescription s pid desc))

/-! ### The mover pipeline of `main` -/

/-- Destination playlist name for a year suffix: `f"{year_suffix} Junk Drawer"`. -/
def bucketPlaylistName (suffix : String) : String := suffix ++ " Junk Drawer"

/-- Base description of a destination playlist. -/
def bucketBaseDescription (suffix sourceName : String) : String :=
  "Junk drawer of tracks added in " ++ suffix ++ " from " ++ sourceName

/-- Post-run description of a destination playlist. -/
def bucketRunDescription (suffix sourceName runTs : String) (n : Nat) : String :=
  bucketBaseDescription suffix sourceName ++ ". Last run " ++ runTs ++ " moved " ++
    Nat.repr n ++ " tracks."

/-- Post-run description of the source playlist. -/
def sourceRunDescription (sourceName runTs : String) (total : Nat) : String :=
  sourceName ++ " (managed by Junk Mover). Last run " ++ runTs ++ " moved " ++
    Nat.repr total ++ " tracks to junk drawers."

/-- The loop body of `main` for one bucket: resolve (find-or-create) the
destination playlist, append the bucket's URIs to it, then remove them
from the source, then overwrite the destination's description; yields
the number of URIs moved. -/
def processBucket (oracle : ApiAction → Bool)
    (userId sourceId sourceName runTs suffix : String)
    (tracks : List (String × Date)) : M Nat := do
  let targetId ← ensure_junk_drawer_playlist oracle userId
    (bucketPlaylistName suffix) (bucketBaseDescription suffix sourceName)
  let _ ← add_tracks_to_playlist oracle targetId (tracks.map Prod.fst)
  let _ ← remove_tracks_from_playlist oracle sourceId (tracks.map Prod.fst)
  let _ ← update_playlist_description oracle targetId
    (bucketRunDescription suffix sourceName runTs (tracks.map Prod.fst).length)
  M.pure (tracks.map Prod.fst).length

/-- The bucket loop of `main`, accumulating `total_moved`. -/
def processBuckets (oracle : ApiAction → Bool)
    (userId sourceId sourceName runTs : String) :
    List (String × List (String × Date)) → Nat → M Nat
  | [], total => M.pure total
  | (suffix, tracks) :: rest, total => do
    let n ← processBucket oracle userId sourceId sourceName runTs suffix tracks
    processBuckets oracle userId sourceId sourceName runTs rest (total + n)

/-- The tail of `main` once candidates were found: process every bucket,
then overwrite the source playlist's description with the total. -/
def moveAndAnnotate (oracle : ApiAction → Bool)
    (userId sourceId sourceName runTs : String)
    (buckets : List (String × List (String × Date))) : M Unit := do
  let total ← processBuckets oracle userId sourceId sourceName runTs buckets 0
  update_playlist_description oracle sourceId (sourceRunDescription sourceName runTs total)

/-- The pipeline of `main` after configuration: authenticate, locate the
source playlist, enumerate and filter its items by age, return early on
zero candidates, otherwise bucket by year suffix and move. -/
def runPipeline (oracle : ApiAction → Bool) (cfg : Config) (today : Date)
    (runTs : String) : M Unit := do
  let _accessToken ← fetch_access_token oracle
  let userId ← get_current_user oracle
  let sourcePl ← find_playlist_by_name_owner oracle userId cfg.sourcePlaylistName
  match sourcePl with
  | none => M.throw ("Could not find playlist " ++ cfg.sourcePlaylistName ++ " owned by this user.")
  | some sp => do
    let items ← paginate_playlist_items oracle sp.id
    match collectCandidatesE (subDays today cfg.durationDays) items with
    | .error e => M.throw e
    | .ok candidates =>
      if candidates.isEmpty then M.pure ()
      else
        moveAndAnnotate oracle userId sp.id cfg.sourcePlaylistName runTs
          (group_tracks_by_year_suffix candidates)

/-- The whole of `main`: configuration validation (which happens before
any API request), then the pipeline. -/
def junk_mover_main (env : String → Option String) (oracle : ApiAction → Bool)
    (today : Date) (runTs : String) : M Unit := fun rs =>
  match validateConfig env with
  | .error e => (.error e, rs)
  | .ok cfg => runPipeline oracle cfg today runTs rs

/-! ### Theorems: batch chunking (C5) -/

/-- Concatenating the chunks reproduces the original list in order. -/
theorem chunkedAux_join (size : Nat) (hs : 0 < size) :
    ∀ fuel seq, seq.length ≤ fuel → (chunkedAux fuel seq size).flatten = seq := by
  intro fuel
  induction fuel with
  | zero =>
    intro seq hlen
    have : seq = [] := List.length_eq_zero.mp (Nat.le_zero.mp hlen)
    subst this
    rfl
  | succ n ih =>
    intro seq hlen
    cases seq with
    | nil => rfl
    | cons a l =>
      simp only [List.length_cons] at hlen
      have hs0 : ¬ size = 0 := Nat.pos_iff_ne_zero.mp hs
      simp only [chunkedAux, List.isEmpty_cons, Bool.false_eq_true, if_false, hs0,
        List.flatten_cons]
      rw [ih ((a :: l).drop size)]
      · exact List.take_append_drop size (a :: l)
      · simp only [List.length_drop, List.length_cons]
        omega

/-- Every chunk has at most `size` elements. -/
theorem chunkedAux_sizes (size : Nat) :
    ∀ fuel seq c, c ∈ chunkedAux fuel seq size → c.length ≤ size := by
  intro fuel
  induction fuel with
  | zero => intro seq c hc; simp [chunkedAux] at hc
  | succ n ih =>
    intro seq c hc
    cases seq with
    | nil => simp [chunkedAux] at hc
    | cons a l =>
      by_cases hs0 : size = 0
      · simp [chunkedAux, hs0] at hc
      · simp only [chunkedAux, List.isEmpty_cons, Bool.false_eq_true, if_false, hs0,
          List.mem_cons] at hc
        rcases hc with h | h
        · subst h
          simp [List.length_take]
        · exact ih _ _ h

/-- The number of chunks is the ceiling of `length / size`. -/
theorem chunkedAux_length (size : Nat) (hs : 0 < size) :
    ∀ fuel seq, seq.length ≤ fuel →
      (chunkedAux fuel seq size).length = (seq.length + size - 1) / size := by
  intro fuel
  induction fuel with
  | zero =>
    intro seq hlen
    have : seq = [] := List.length_eq_zero.mp (Nat.le_zero.mp hlen)
    subst this
    simp [chunkedAux, Nat.div_eq_of_lt (by omega : size - 1 < size)]
  | succ n ih =>
    intro seq hlen
    cases seq with
    | nil => simp [chunkedAux, Nat.div_eq_of_lt (by omega : size - 1 < size)]
    | cons a l =>
      simp only [List.length_cons] at hlen
      have hs0 : ¬ size = 0 := Nat.pos_iff_ne_zero.mp hs
      simp only [chunkedAux, List.isEmpty_cons, Bool.false_eq_true, if_false, hs0,
        List.length_cons]
      rw [ih ((a :: l).drop size) (by simp only [List.length_drop, List.length_cons]; omega)]
      simp only [List.length_drop, List.length_cons]
      rcases le_or_lt (l.length + 1) size with h | h
      · have e1 : l.length + 1 - size = 0 := by omega
        rw [e1]
        have e2 : (0 + size - 1) / size = 0 := Nat.div_eq_of_lt (by omega)
        rw [e2]
        have e3 : l.length + 1 + size - 1 = (l.length + 1 - 1) + size := by omega
        rw [e3, Nat.add_div_right _ hs, Nat.div_eq_of_lt (by omega : l.length + 1 - 1 < size)]
      · have e1 : l.length + 1 - size + size - 1 = (l.length + 1 - size - 1) + size := by omega
        have e2 : l.length + 1 + size - 1 = (l.length + 1 - 1) + size := by omega
        rw [e1, e2, Nat.add_div_right _ hs, Nat.add_div_right _ hs]
        have e3 : l.length + 1 - 1 = (l.length + 1 - size - 1) + size := by omega
        rw [e3, Nat.add_div_right _ hs]

/-- C5: for every list of N URIs and every positive batch size S, `chunked`
yields exactly ceil(N/S) chunks, each of length at most S, and their
concatenation in order is the original list. -/
theorem claim_C5_batch_chunking (uris : List String) (S : Nat) (hS : 0 < S) :
    (chunked uris S).length = (uris.length + S - 1) / S ∧
    (∀ c ∈ chunked uris S, c.length ≤ S) ∧
    (chunked uris S).flatten = uris := by
  refine ⟨chunkedAux_length S hS _ _ (Nat.le_refl _), fun c hc => chunkedAux_sizes S _ _ c hc,
    chunkedAux_join S hS _ _ (Nat.le_refl _)⟩

/-- Witness for C5 at a concrete list and batch size. -/
theorem claim_C5_batch_chunking_witness :
    (0 < 2) ∧
    ((chunked ["a", "b", "c"] 2).length = (3 + 2 - 1) / 2 ∧
      (∀ c ∈ chunked ["a", "b", "c"] 2, c.length ≤ 2) ∧
      (chunked ["a", "b", "c"] 2).flatten = ["a", "b", "c"]) :=
  ⟨by decide, claim_C5_batch_chunking ["a", "b", "c"] 2 (by decide)⟩

/-! ### Theorems: bucketing (C2, C6) -/

/-- Width-2 zero-padded rendering is exact for every value of `year % 100`. -/
theorem format02d_two_digits :
    ∀ n, n < 100 → (format02d n).length = 2 ∧ decodeDecimal (format02d n) = some n := by
  decide

/-- Every member of a bucket has the bucket's key as its year suffix. -/
def BucketInv (buckets : List (String × List (String × Date))) : Prop :=
  ∀ k bs, (k, bs) ∈ buckets → ∀ p ∈ bs, k = format02d (p.2.year % 100)

/-- `insertBucket` preserves the bucket-key invariant. -/
theorem insertBucket_inv {buckets : List (String × List (String × Date))}
    {key : String} {x : String × Date} (hinv : BucketInv buckets)
    (hkey : key = format02d (x.2.year % 100)) : BucketInv (insertBucket buckets key x) := by
  induction buckets with
  | nil =>
    intro k bs hmem p hp
    simp only [insertBucket, List.mem_singleton, Prod.mk.injEq] at hmem
    rcases hmem with ⟨hk, hbs⟩
    subst hk; subst hbs
    simp only [List.mem_singleton] at hp
    subst hp
    exact hkey
  | cons hd rest ih =>
    obtain ⟨k0, xs⟩ := hd
    intro k bs hmem p hp
    by_cases he : k0 = key
    · simp only [insertBucket, he, if_true, List.mem_cons, Prod.mk.injEq] at hmem
      rcases hmem with ⟨hk, hbs⟩ | hmem
      · subst hbs
        rcases List.mem_append.mp hp with h | h
        · rw [hk, ← he]
          exact hinv k0 xs (List.mem_cons_self _ _) p h
        · simp only [List.mem_singleton] at h
          subst h
          rw [hk]
          exact hkey
      · exact hinv k bs (List.mem_cons_of_mem _ hmem) p hp
    · simp only [insertBucket, he, if_false, List.mem_cons] at hmem
      rcases hmem with hmem | hmem
      · rcases hmem
        exact hinv k0 xs (List.mem_cons_self _ _) p hp
      · have hrest : BucketInv rest := fun k' bs' h' => hinv k' bs' (List.mem_cons_of_mem _ h')
        exact ih hrest k bs hmem p hp

/-- The grouping function satisfies the bucket-key invariant. -/
theorem group_inv (tracks : List (String × Date)) :
    BucketInv (group_tracks_by_year_suffix tracks) := by
  have main : ∀ (ts : List (String × Date)) (acc : List (String × List (String × Date))),
      BucketInv acc →
      BucketInv (ts.foldl (fun buckets p => insertBucket buckets (format02d (p.2.year % 100)) p) acc) := by
    intro ts
    induction ts with
    | nil => intro acc h; exact h
    | cons a l ih =>
      intro acc h
      exact ih _ (insertBucket_inv h rfl)
  exact main tracks [] (fun k bs h => by simp at h)

/-- `insertBucket` either keeps the key list or appends the new key. -/
theorem insertBucket_keys (key : String) (x : String × Date) :
    ∀ buckets : List (String × List (String × Date)),
      (insertBucket buckets key x).map Prod.fst =
        if key ∈ buckets.map Prod.fst then buckets.map Prod.fst
        else buckets.map Prod.fst ++ [key] := by
  intro buckets
  induction buckets with
  | nil => simp [insertBucket]
  | cons hd rest ih =>
    obtain ⟨k0, xs⟩ := hd
    by_cases he : k0 = key
    · simp [insertBucket, he]
    · have he2 : ¬ key = k0 := fun h => he h.symm
      simp only [insertBucket, he, if_false, List.map_cons, List.mem_cons, he2, false_or, ih]
      by_cases hmem : key ∈ rest.map Prod.fst
      · simp [hmem]
      · simp [hmem]

/-- Bucket keys produced by the grouping function are pairwise distinct. -/
theorem group_keys_nodup (tracks : List (String × Date)) :
    ((group_tracks_by_year_suffix tracks).map Prod.fst).Nodup := by
  have main : ∀ (ts : List (String × Date)) (acc : List (String × List (String × Date))),
      (acc.map Prod.fst).Nodup →
      ((ts.foldl (fun buckets p => insertBucket buckets (format02d (p.2.year % 100)) p) acc).map Prod.fst).Nodup := by
    intro ts
    induction ts with
    | nil => intro acc h; exact h
    | cons a l ih =>
      intro acc h
      apply ih
      rw [insertBucket_keys]
      by_cases hmem : format02d (a.2.year % 100) ∈ acc.map Prod.fst
      · simp only [hmem, if_true]
        exact h
      · simp only [hmem, if_false]
        rw [List.nodup_append]
        refine ⟨h, List.nodup_singleton _, ?_⟩
        intro y hy hy2
        simp only [List.mem_singleton] at hy2
        subst hy2
        exact hmem hy
  exact main tracks [] (by simp)

/-- C2: for every selected track, the bucket key computed by the grouping
function equals the track's added-date year modulo 100, rendered as a
decimal string zero-padded to exactly two digits. -/
theorem claim_C2_bucket_key (tracks : List (String × Date)) (k : String)
    (bs : List (String × Date)) (uri : String) (d : Date)
    (hk : (k, bs) ∈ group_tracks_by_year_suffix tracks) (hp : (uri, d) ∈ bs) :
    k = format02d (d.year % 100) ∧ k.length = 2 ∧ decodeDecimal k = some (d.year % 100) := by
  have hkey : k = format02d (d.year % 100) := group_inv tracks k bs hk (uri, d) hp
  have hd : d.year % 100 < 100 := Nat.mod_lt _ (by omega)
  obtain ⟨h1, h2⟩ := format02d_two_digits _ hd
  exact ⟨hkey, by rw [hkey]; exact h1, by rw [hkey]; exact h2⟩

/-- Witness for C2 at a concrete track list. -/
theorem claim_C2_bucket_key_witness :
    (("05", [("u4", (⟨2005, 1, 1⟩ : Date))]) ∈
        group_tracks_by_year_suffix [("u4", ⟨2005, 1, 1⟩)] ∧
      ("u4", (⟨2005, 1, 1⟩ : Date)) ∈ [("u4", (⟨2005, 1, 1⟩ : Date))]) ∧
    ("05" = format02d (2005 % 100) ∧ ("05" : String).length = 2 ∧
      decodeDecimal "05" = some (2005 % 100)) :=
  ⟨⟨by decide, by decide⟩,
   claim_C2_bucket_key [("u4", ⟨2005, 1, 1⟩)] "05" [("u4", ⟨2005, 1, 1⟩)] "u4" ⟨2005, 1, 1⟩
     (by decide) (by decide)⟩

/-- C6: each track reference appears in at most one destination bucket per
run: the bucket keys are pairwise distinct, and any bucket containing a
given track reference has the key determined by its added date, so two
buckets containing the same reference coincide. -/
theorem claim_C6_bucket_uniqueness (tracks : List (String × Date)) :
    ((group_tracks_by_year_suffix tracks).map Prod.fst).Nodup ∧
    (∀ k1 k2 b1 b2 x, (k1, b1) ∈ group_tracks_by_year_suffix tracks →
      (k2, b2) ∈ group_tracks_by_year_suffix tracks → x ∈ b1 → x ∈ b2 → k1 = k2) := by
  refine ⟨group_keys_nodup tracks, ?_⟩
  intro k1 k2 b1 b2 x h1 h2 hx1 hx2
  rw [group_inv tracks k1 b1 h1 x hx1, group_inv tracks k2 b2 h2 x hx2]

/-- Witness for C6 at a concrete track list. -/
theorem claim_C6_bucket_uniqueness_witness :
    ((group_tracks_by_year_suffix [("u", ⟨2023, 1, 1⟩), ("v", ⟨2023, 2, 2⟩)]).map
      Prod.fst).Nodup ∧ ("23" : String) = "23" :=
  ⟨(claim_C6_bucket_uniqueness [("u", ⟨2023, 1, 1⟩), ("v", ⟨2023, 2, 2⟩)]).1,
   (claim_C6_bucket_uniqueness [("u", ⟨2023, 1, 1⟩), ("v", ⟨2023, 2, 2⟩)]).2 "23" "23"
     [("u", ⟨2023, 1, 1⟩), ("v", ⟨2023, 2, 2⟩)] [("u", ⟨2023, 1, 1⟩), ("v", ⟨2023, 2, 2⟩)]
     ("u", ⟨2023, 1, 1⟩) (by decide) (by decide) (by decide) (by decide)⟩

/-! ### Theorems: the aging filter (C1, C10) -/

/-- Every collected candidate has its added date on or before the cutoff. -/
theorem collect_date_le (cutoff : Date) :
    ∀ items res, collectCandidatesE cutoff items = .ok res →
      ∀ p ∈ res, Date.leB p.2 cutoff = true := by
  intro items
  induction items with
  | nil =>
    intro res h p hp
    simp only [collectCandidatesE, Except.ok.injEq] at h
    subst h
    simp at hp
  | cons it rest ih =>
    intro res h p hp
    rcases haa : it.added_at with _ | ts <;> rcases hu : itemUri it with _ | u <;>
      simp only [collectCandidatesE, haa, hu] at h
    · exact ih res h p hp
    · exact ih res h p hp
    · exact ih res h p hp
    · by_cases hts : ts = "" ∨ u = ""
      · rw [if_pos hts] at h
        exact ih res h p hp
      · rw [if_neg hts] at h
        rcases hiso : iso_to_date ts with _ | d
        · rw [hiso] at h
          cases h
        · simp only [hiso] at h
          by_cases hle : Date.leB d cutoff
          · rw [if_pos hle] at h
            rcases hrec : collectCandidatesE cutoff rest with e | res' <;> rw [hrec] at h
            · simp only [Except.map] at h
              cases h
            · simp only [Except.map, Except.ok.injEq] at h
              subst h
              rcases List.mem_cons.mp hp with h | h
              · subst h
                exact hle
              · exact ih res' hrec p h
          · rw [if_neg hle] at h
            exact ih res h p hp

/-- An enumerated item with usable fields whose added date is on or before
the cutoff is collected as a candidate. -/
theorem collect_mem (cutoff : Date) :
    ∀ items res, collectCandidatesE cutoff items = .ok res →
      ∀ it ∈ items, ∀ ts u d, it.added_at = some ts → itemUri it = some u →
        ¬ ts = "" → ¬ u = "" → iso_to_date ts = some d →
        Date.leB d cutoff = true → (u, d) ∈ res := by
  intro items
  induction items with
  | nil =>
    intro res h it hit
    simp at hit
  | cons it0 rest ih =>
    intro res h it hit ts u d haa hu hts hu2 hiso hle
    rcases List.mem_cons.mp hit with hcase | hcase
    · subst hcase
      simp only [collectCandidatesE, haa, hu] at h
      rw [if_neg (by tauto : ¬ (ts = "" ∨ u = ""))] at h
      simp only [hiso] at h
      rw [if_pos hle] at h
      rcases hrec : collectCandidatesE cutoff rest with e | res' <;> rw [hrec] at h
      · simp only [Except.map] at h
        cases h
      · simp only [Except.map, Except.ok.injEq] at h
        subst h
        exact List.mem_cons_self _ _
    · rcases haa0 : it0.added_at with _ | ts0 <;> rcases hu0 : itemUri it0 with _ | u0 <;>
        simp only [collectCandidatesE, haa0, hu0] at h
      · exact ih res h it hcase ts u d haa hu hts hu2 hiso hle
      · exact ih res h it hcase ts u d haa hu hts hu2 hiso hle
      · exact ih res h it hcase ts u d haa hu hts hu2 hiso hle
      · by_cases hts0 : ts0 = "" ∨ u0 = ""
        · rw [if_pos hts0] at h
          exact ih res h it hcase ts u d haa hu hts hu2 hiso hle
        · rw [if_neg hts0] at h
          rcases hiso0 : iso_to_date ts0 with _ | d0
          · rw [hiso0] at h
            cases h
          · simp only [hiso0] at h
            by_cases hle0 : Date.leB d0 cutoff
            · rw [if_pos hle0] at h
              rcases hrec : collectCandidatesE cutoff rest with e | res' <;> rw [hrec] at h
              · simp only [Except.map] at h
                cases h
              · simp only [Except.map, Except.ok.injEq] at h
                subst h
                exact List.mem_cons_of_mem _ (ih res' hrec it hcase ts u d haa hu hts hu2 hiso hle)
            · rw [if_neg hle0] at h
              exact ih res h it hcase ts u d haa hu hts hu2 hiso hle

/-- C1: for every track item with a parsable timestamp and usable fields,
the candidate loop of `main` selects the item if and only if the date
obtained by truncating the timestamp is on or before the cutoff
`today - durationDays`; with a day count of 0 the cutoff is today itself,
so every item already added (date on or before today) is selected. -/
theorem claim_C1_aging_filter (items : List Item) (today : Date) (n : Nat)
    (res : List (String × Date))
    (h : collectCandidatesE (subDays today n) items = .ok res) :
    (∀ it ∈ items, ∀ ts u d, it.added_at = some ts → itemUri it = some u →
      ts ≠ "" → u ≠ "" → iso_to_date ts = some d →
      ((u, d) ∈ res ↔ Date.leB d (subDays today n) = true)) ∧
    (n = 0 → ∀ it ∈ items, ∀ ts u d, it.added_at = some ts → itemUri it = some u →
      ts ≠ "" → u ≠ "" → iso_to_date ts = some d → Date.leB d today = true →
      (u, d) ∈ res) := by
  constructor
  · intro it hit ts u d haa hu hts hu2 hiso
    constructor
    · intro hmem
      exact collect_date_le (subDays today n) items res h (u, d) hmem
    · intro hle
      exact collect_mem (subDays today n) items res h it hit ts u d haa hu hts hu2 hiso hle
  · intro hn it hit ts u d haa hu hts hu2 hiso hle
    subst hn
    exact collect_mem (subDays today 0) items res h it hit ts u d haa hu hts hu2 hiso hle

/-- Witness for C1 at a concrete item list and cutoff. -/
theorem claim_C1_aging_filter_witness :
    (collectCandidatesE (subDays ⟨2025, 10, 12⟩ 0)
        [{ added_at := some "2025-10-12T08:00:00Z", track := some { uri := some "spotify:x" } }] =
      .ok [("spotify:x", ⟨2025, 10, 12⟩)]) ∧
    (("spotify:x", (⟨2025, 10, 12⟩ : Date)) ∈ [("spotify:x", (⟨2025, 10, 12⟩ : Date))] ↔
      Date.leB ⟨2025, 10, 12⟩ (subDays ⟨2025, 10, 12⟩ 0) = true) :=
  ⟨by rfl,
   (claim_C1_aging_filter
      [{ added_at := some "2025-10-12T08:00:00Z", track := some { uri := some "spotify:x" } }]
      ⟨2025, 10, 12⟩ 0 [("spotify:x", ⟨2025, 10, 12⟩)] (by rfl)).1
     { added_at := some "2025-10-12T08:00:00Z", track := some { uri := some "spotify:x" } }
     (by decide) "2025-10-12T08:00:00Z" "spotify:x" ⟨2025, 10, 12⟩ rfl rfl
     (by decide) (by decide) (by rfl)⟩

/-- C10: an item lacking an added-at timestamp or a track URI (missing,
null or empty) is silently skipped by the candidate-collection step: the
collected candidates are exactly those of the same run without the item,
and no error arises from it; consequently it is never bucketed, moved or
counted downstream, which only consumes the candidate list. -/
theorem claim_C10_missing_fields_skipped (cutoff : Date) (pre post : List Item) (it : Item)
    (h : hasRequiredFields it = false) :
    collectCandidatesE cutoff (pre ++ it :: post) = collectCandidatesE cutoff (pre ++ post) := by
  induction pre with
  | nil =>
    simp only [List.nil_append]
    rcases haa : it.added_at with _ | ts <;> rcases hu : itemUri it with _ | u <;>
      simp only [collectCandidatesE, haa, hu]
    have hfields : (truthyStr it.added_at && truthyStr (itemUri it)) = false := h
    rw [haa, hu] at hfields
    simp only [truthyStr, Bool.and_eq_false_iff, Bool.not_eq_eq_eq_not, Bool.not_false,
      beq_iff_eq] at hfields
    rw [if_pos hfields]
  | cons a pre' ih =>
    simp only [List.cons_append]
    rcases haa : a.added_at with _ | ts <;> rcases hu : itemUri a with _ | u <;>
      simp only [collectCandidatesE, haa, hu]
    · exact ih
    · exact ih
    · exact ih
    · by_cases hts : ts = "" ∨ u = ""
      · rw [if_pos hts, if_pos hts]
        exact ih
      · rw [if_neg hts, if_neg hts]
        rcases hiso : iso_to_date ts with _ | d
        · simp only [hiso]
        · simp only [hiso]
          by_cases hle : Date.leB d cutoff
          · rw [if_pos hle, if_pos hle, ih]
          · rw [if_neg hle, if_neg hle]
            exact ih

/-- Witness for C10 at a concrete item with a missing timestamp. -/
theorem claim_C10_missing_fields_skipped_witness :
    (hasRequiredFields { added_at := none, track := some { uri := some "spotify:skip" } } = false) ∧
    collectCandidatesE ⟨2025, 10, 12⟩
        ([{ added_at := some "2020-01-01T00:00:00Z", track := some { uri := some "spotify:a" } }] ++
          { added_at := none, track := some { uri := some "spotify:skip" } } ::
            [{ added_at := some "2021-01-01T00:00:00Z", track := some { uri := some "spotify:b" } }]) =
      collectCandidatesE ⟨2025, 10, 12⟩
        ([{ added_at := some "2020-01-01T00:00:00Z", track := some { uri := some "spotify:a" } }] ++
          [{ added_at := some "2021-01-01T00:00:00Z", track := some { uri := some "spotify:b" } }]) :=
  ⟨by decide,
   claim_C10_missing_fields_skipped ⟨2025, 10, 12⟩
     [{ added_at := some "2020-01-01T00:00:00Z", track := some { uri := some "spotify:a" } }]
     [{ added_at := some "2021-01-01T00:00:00Z", track := some { uri := some "spotify:b" } }]
     { added_at := none, track := some { uri := some "spotify:skip" } } (by decide)⟩

/-! ### Theorems: the effect layer (request, state and pagination lemmas) -/

theorem M_bind_ok {α β : Type} (x : M α) (f : α → M β) (rs rs1 : RunState) (a : α)
    (h : x rs = (.ok a, rs1)) : (x >>= f) rs = f a rs1 := by
  show M.bind x f rs = f a rs1
  unfold M.bind
  rw [h]

theorem M_bind_error {α β : Type} (x : M α) (f : α → M β) (rs rs1 : RunState) (e : String)
    (h : x rs = (.error e, rs1)) : (x >>= f) rs = (.error e, rs1) := by
  show M.bind x f rs = (.error e, rs1)
  unfold M.bind
  rw [h]

theorem M_pure_eq {α : Type} (a : α) (rs : RunState) : (M.pure a : M α) rs = (.ok a, rs) := rfl

theorem spotify_request_true {α : Type} (oracle : ApiAction → Bool) (a : ApiAction)
    (op : SpotifyState → α × SpotifyState) (rs : RunState) (h : oracle a = true) :
    spotify_request oracle a op rs = (.ok (op rs.1).1, ((op rs.1).2, rs.2 ++ [a])) := by
  unfold spotify_request
  rw [h]
  simp

theorem spotify_request_false {α : Type} (oracle : ApiAction → Bool) (a : ApiAction)
    (op : SpotifyState → α × SpotifyState) (rs : RunState) (h : oracle a = false) :
    spotify_request oracle a op rs = (.error "Spotify API error", rs) := by
  unfold spotify_request
  rw [h]
  simp

theorem getState_eq (rs : RunState) : M.getState rs = (.ok rs.1, rs) := rfl

theorem beq_string_false {a b : String} (h : ¬ (a == b) = true) : (a == b) = false := by
  revert h
  cases a == b <;> simp

theorem find?_id_map (g : Playlist → Playlist) (hg : ∀ p, (g p).id = p.id)
    (l : List Playlist) (pid : String) :
    (l.map g).find? (fun p => p.id == pid) = (l.find? (fun p => p.id == pid)).map g := by
  induction l with
  | nil => rfl
  | cons p l ih =>
    by_cases h : p.id == pid
    · rw [List.map_cons,
        @List.find?_cons_of_pos _ (fun q => q.id == pid) (g p) (l.map g) (by simp [hg, h]),
        @List.find?_cons_of_pos _ (fun q => q.id == pid) p l h]
      rfl
    · have h2 : (p.id == pid) = false := by revert h; cases p.id == pid <;> simp
      rw [List.map_cons,
        @List.find?_cons_of_neg _ (fun q => q.id == pid) (g p) (l.map g) (by simp [hg, h2]),
        @List.find?_cons_of_neg _ (fun q => q.id == pid) p l (by simp [h2]), ih]

theorem plHasUri_addUris_mono (s : SpotifyState) (pid : String) (uris : List String)
    (pid' u : String) (h : s.plHasUri pid' u = true) :
    (stateAddUris s pid uris).plHasUri pid' u = true := by
  unfold SpotifyState.plHasUri at h ⊢
  unfold stateAddUris
  rw [find?_id_map _ (fun p => by by_cases hid : p.id == pid <;> simp [hid])]
  rcases hf : s.playlists.find? (fun p => p.id == pid') with _ | p
  · rw [hf] at h
    cases h
  · rw [hf] at h ⊢
    simp only [Option.map_some']
    have h2 : p.items.any (fun it => itemUri it == some u) = true := h
    simp only [List.any_eq_true, beq_iff_eq] at h2
    by_cases hid : p.id == pid
    · simp [hid, List.any_append]
      exact Or.inl h2
    · simp [beq_string_false hid]
      exact h2

theorem plHasUri_eq_any (s : SpotifyState) (pid u : String) (p : Playlist)
    (hf : s.playlists.find? (fun q => q.id == pid) = some p) :
    s.plHasUri pid u = p.items.any (fun it => itemUri it == some u) := by
  unfold SpotifyState.plHasUri
  rw [hf]

theorem plHasUri_eq_false (s : SpotifyState) (pid u : String)
    (hf : s.playlists.find? (fun q => q.id == pid) = none) :
    s.plHasUri pid u = false := by
  unfold SpotifyState.plHasUri
  rw [hf]

theorem hasId_find?_some (s : SpotifyState) (pid : String) (h : hasId s pid = true) :
    ∃ p, s.playlists.find? (fun q => q.id == pid) = some p ∧ (p.id == pid) = true := by
  unfold hasId at h
  rw [List.any_eq_true] at h
  obtain ⟨p0, hp0, hpred⟩ := h
  have hsome : (s.playlists.find? (fun q => q.id == pid)).isSome = true :=
    List.find?_isSome.mpr ⟨p0, hp0, hpred⟩
  rcases hf : s.playlists.find? (fun q => q.id == pid) with _ | p
  · rw [hf] at hsome
    cases hsome
  · exact ⟨p, hf, @List.find?_some _ (fun q => q.id == pid) p s.playlists hf⟩

theorem addUris_playlist (p : Playlist) (pid : String) (uris : List String) :
    ((fun p => if p.id == pid then
        { p with items := p.items ++ uris.map addedItem } else p) p).id = p.id := by
  by_cases hq : (p.id == pid) = true <;> simp [hq]

theorem removeUris_playlist (p : Playlist) (pid : String) (uris : List String) :
    ((fun p => if p.id == pid then
        { p with items := p.items.filter (fun it => !(uris.any (fun u => itemUri it == some u))) }
      else p) p).id = p.id := by
  by_cases hq : (p.id == pid) = true <;> simp [hq]

theorem setDesc_playlist (p : Playlist) (pid desc : String) :
    ((fun p => if p.id == pid then { p with description := desc } else p) p).id = p.id := by
  by_cases hq : (p.id == pid) = true <;> simp [hq]

theorem beq_false_of_ne_of_eq {a b c : String} (hab : (a == b) = true) (hne : ¬ b = c) :
    (a == c) = false := by
  rw [beq_iff_eq] at hab
  subst hab
  rcases hq : a == c with _ | _
  · rfl
  · rw [beq_iff_eq] at hq
    exact absurd hq hne

theorem plHasUri_addUris_self (s : SpotifyState) (pid : String) (uris : List String)
    (u : String) (hid : hasId s pid = true) (hu : u ∈ uris) :
    (stateAddUris s pid uris).plHasUri pid u = true := by
  obtain ⟨p, hf, hpred⟩ := hasId_find?_some s pid hid
  have hf2 : (stateAddUris s pid uris).playlists.find? (fun q => q.id == pid) =
      some { p with items := p.items ++ uris.map addedItem } := by
    unfold stateAddUris
    rw [find?_id_map _ (fun p => addUris_playlist p pid uris), hf, Option.map_some', if_pos hpred]
  rw [plHasUri_eq_any _ _ _ _ hf2]
  simp only [List.any_append, Bool.or_eq_true, List.any_eq_true]
  exact Or.inr ⟨addedItem u, List.mem_map_of_mem _ hu, by simp [addedItem, itemUri]⟩

theorem plHasUri_addUris_other (s : SpotifyState) (pid : String) (uris : List String)
    (pid' u : String) (hne : ¬ pid' = pid) :
    (stateAddUris s pid uris).plHasUri pid' u = s.plHasUri pid' u := by
  rcases hf : s.playlists.find? (fun q => q.id == pid') with _ | p
  · have hf2 : (stateAddUris s pid uris).playlists.find? (fun q => q.id == pid') = none := by
      unfold stateAddUris
      rw [find?_id_map _ (fun p => addUris_playlist p pid uris), hf]
      rfl
    rw [plHasUri_eq_false _ _ _ hf, plHasUri_eq_false _ _ _ hf2]
  · have hpid' : (p.id == pid') = true :=
      @List.find?_some _ (fun q => q.id == pid') p s.playlists hf
    have hcond : (p.id == pid) = false := beq_false_of_ne_of_eq hpid' hne
    have hf2 : (stateAddUris s pid uris).playlists.find? (fun q => q.id == pid') = some p := by
      unfold stateAddUris
      rw [find?_id_map _ (fun p => addUris_playlist p pid uris), hf, Option.map_some', hcond]
      simp
    rw [plHasUri_eq_any _ _ _ p hf, plHasUri_eq_any _ _ _ p hf2]

theorem plHasUri_removeUris_other (s : SpotifyState) (pid : String) (uris : List String)
    (pid' u : String) (hne : ¬ pid' = pid) :
    (stateRemoveUris s pid uris).plHasUri pid' u = s.plHasUri pid' u := by
  rcases hf : s.playlists.find? (fun q => q.id == pid') with _ | p
  · have hf2 : (stateRemoveUris s pid uris).playlists.find? (fun q => q.id == pid') = none := by
      unfold stateRemoveUris
      rw [find?_id_map _ (fun p => removeUris_playlist p pid uris), hf]
      rfl
    rw [plHasUri_eq_false _ _ _ hf, plHasUri_eq_false _ _ _ hf2]
  · have hpid' : (p.id == pid') = true :=
      @List.find?_some _ (fun q => q.id == pid') p s.playlists hf
    have hcond : (p.id == pid) = false := beq_false_of_ne_of_eq hpid' hne
    have hf2 : (stateRemoveUris s pid uris).playlists.find? (fun q => q.id == pid') = some p := by
      unfold stateRemoveUris
      rw [find?_id_map _ (fun p => removeUris_playlist p pid uris), hf, Option.map_some', hcond]
      simp
    rw [plHasUri_eq_any _ _ _ p hf, plHasUri_eq_any _ _ _ p hf2]

theorem plHasUri_removeUris_self (s : SpotifyState) (pid : String) (uris : List String)
    (u : String) (hu : u ∈ uris) :
    (stateRemoveUris s pid uris).plHasUri pid u = false := by
  rcases hf : s.playlists.find? (fun q => q.id == pid) with _ | p
  · have hf2 : (stateRemoveUris s pid uris).playlists.find? (fun q => q.id == pid) = none := by
      unfold stateRemoveUris
      rw [find?_id_map _ (fun p => removeUris_playlist p pid uris), hf]
      rfl
    rw [plHasUri_eq_false _ _ _ hf2]
  · have hpred : (p.id == pid) = true :=
      @List.find?_some _ (fun q => q.id == pid) p s.playlists hf
    have hf2 : (stateRemoveUris s pid uris).playlists.find? (fun q => q.id == pid) =
        some { p with items := p.items.filter (fun it => !(uris.any (fun u => itemUri it == some u))) } := by
      unfold stateRemoveUris
      rw [find?_id_map _ (fun p => removeUris_playlist p pid uris), hf, Option.map_some',
        if_pos hpred]
    rw [plHasUri_eq_any _ _ _ _ hf2]
    rw [Bool.eq_false_iff]
    intro hcontra
    rw [List.any_eq_true] at hcontra
    obtain ⟨it, hit, hitu⟩ := hcontra
    have hkeep := List.of_mem_filter hit
    simp only [Bool.not_eq_eq_eq_not, Bool.not_true, List.any_eq_false] at hkeep
    exact absurd hitu (by simpa using hkeep u hu)

theorem plHasUri_setDesc (s : SpotifyState) (pid desc : String) (pid' u : String) :
    (stateSetDescription s pid desc).plHasUri pid' u = s.plHasUri pid' u := by
  rcases hf : s.playlists.find? (fun q => q.id == pid') with _ | p
  · have hf2 : (stateSetDescription s pid desc).playlists.find? (fun q => q.id == pid') = none := by
      unfold stateSetDescription
      rw [find?_id_map _ (fun p => setDesc_playlist p pid desc), hf]
      rfl
    rw [plHasUri_eq_false _ _ _ hf, plHasUri_eq_false _ _ _ hf2]
  · rw [plHasUri_eq_any _ _ _ p hf]
    by_cases hq : (p.id == pid) = true
    · have hf2 : (stateSetDescription s pid desc).playlists.find? (fun q => q.id == pid') =
          some { p with description := desc } := by
        unfold stateSetDescription
        rw [find?_id_map _ (fun p => setDesc_playlist p pid desc), hf, Option.map_some',
          if_pos hq]
      rw [plHasUri_eq_any _ _ _ _ hf2]
    · have hq2 : (p.id == pid) = false := by
        rcases hc : p.id == pid with _ | _
        · rfl
        · exact absurd hc hq
      have hf2 : (stateSetDescription s pid desc).playlists.find? (fun q => q.id == pid') =
          some p := by
        unfold stateSetDescription
        rw [find?_id_map _ (fun p => setDesc_playlist p pid desc), hf, Option.map_some', hq2]
        simp
      rw [plHasUri_eq_any _ _ _ _ hf2]

theorem plHasUri_create (s : SpotifyState) (owner name desc : String) (pid' u : String) :
    ((stateCreate s owner name desc).1).plHasUri pid' u = s.plHasUri pid' u := by
  have hpl : (stateCreate s owner name desc).1.playlists =
      s.playlists ++ [newPlaylist s owner name desc] := rfl
  rcases hf : s.playlists.find? (fun q => q.id == pid') with _ | p
  · rw [plHasUri_eq_false _ _ _ hf]
    have hsplit : (stateCreate s owner name desc).1.playlists.find? (fun q => q.id == pid') =
        List.find? (fun q => q.id == pid') [newPlaylist s owner name desc] := by
      rw [hpl, List.find?_append, hf]
      rfl
    by_cases hq : ((newPlaylist s owner name desc).id == pid') = true
    · have hsome : (stateCreate s owner name desc).1.playlists.find? (fun q => q.id == pid') =
          some (newPlaylist s owner name desc) := by
        rw [hsplit]
        exact List.find?_cons_of_pos _ hq
      rw [plHasUri_eq_any _ _ _ _ hsome]
      rfl
    · have hnone : (stateCreate s owner name desc).1.playlists.find? (fun q => q.id == pid') =
          none := by
        rw [hsplit]
        exact List.find?_cons_of_neg _ hq
      rw [plHasUri_eq_false _ _ _ hnone]
  · rw [plHasUri_eq_any _ _ _ p hf]
    have hsome : (stateCreate s owner name desc).1.playlists.find? (fun q => q.id == pid') =
        some p := by
      rw [hpl, List.find?_append, hf]
      rfl
    rw [plHasUri_eq_any _ _ _ _ hsome]

theorem hasId_map_id (s : SpotifyState) (g : Playlist → Playlist)
    (hg : ∀ p, (g p).id = p.id) (pid : String) :
    (s.playlists.map g).any (fun p => p.id == pid) = hasId s pid := by
  unfold hasId
  rw [List.any_map]
  have hfun : ((fun p => p.id == pid) ∘ g) = (fun p : Playlist => p.id == pid) :=
    funext (fun p => by simp [Function.comp, hg])
  rw [hfun]

theorem hasId_addUris (s : SpotifyState) (pid : String) (uris : List String) (pid' : String) :
    hasId (stateAddUris s pid uris) pid' = hasId s pid' := by
  unfold stateAddUris
  exact hasId_map_id s _ (fun p => addUris_playlist p pid uris) pid'

theorem hasId_removeUris (s : SpotifyState) (pid : String) (uris : List String) (pid' : String) :
    hasId (stateRemoveUris s pid uris) pid' = hasId s pid' := by
  unfold stateRemoveUris
  exact hasId_map_id s _ (fun p => removeUris_playlist p pid uris) pid'

theorem hasId_setDesc (s : SpotifyState) (pid desc : String) (pid' : String) :
    hasId (stateSetDescription s pid desc) pid' = hasId s pid' := by
  unfold stateSetDescription
  exact hasId_map_id s _ (fun p => setDesc_playlist p pid desc) pid'

theorem hasId_create_mono (s : SpotifyState) (owner name desc : String) (pid' : String)
    (h : hasId s pid' = true) : hasId (stateCreate s owner name desc).1 pid' = true := by
  unfold hasId at h ⊢
  show ((s.playlists ++ [newPlaylist s owner name desc]).any fun p => p.id == pid') = true
  rw [List.any_append, h, Bool.true_or]

theorem stateAddUris_nil (s : SpotifyState) (pid : String) :
    stateAddUris s pid [] = s := by
  unfold stateAddUris
  cases s with
  | mk uid pls nid =>
    simp only [SpotifyState.mk.injEq, and_true, true_and]
    rw [List.map_congr_left (g := id) ?_, List.map_id]
    intro p _
    by_cases hq : (p.id == pid) = true <;> simp [hq]

theorem stateAddUris_append (s : SpotifyState) (pid : String) (a b : List String) :
    stateAddUris (stateAddUris s pid a) pid b = stateAddUris s pid (a ++ b) := by
  unfold stateAddUris
  cases s with
  | mk uid pls nid =>
    simp only [SpotifyState.mk.injEq, and_true, true_and, List.map_map]
    apply List.map_congr_left
    intro p _
    by_cases hq : (p.id == pid) = true
    · simp [Function.comp, hq, List.append_assoc]
    · simp [Function.comp, hq]

theorem stateRemoveUris_nil (s : SpotifyState) (pid : String) :
    stateRemoveUris s pid [] = s := by
  unfold stateRemoveUris
  cases s with
  | mk uid pls nid =>
    simp only [SpotifyState.mk.injEq, and_true, true_and]
    rw [List.map_congr_left (g := id) ?_, List.map_id]
    intro p _
    by_cases hq : (p.id == pid) = true <;> simp [hq, List.filter_true]

theorem stateRemoveUris_append (s : SpotifyState) (pid : String) (a b : List String) :
    stateRemoveUris (stateRemoveUris s pid a) pid b = stateRemoveUris s pid (a ++ b) := by
  unfold stateRemoveUris
  cases s with
  | mk uid pls nid =>
    simp only [SpotifyState.mk.injEq, and_true, true_and, List.map_map]
    apply List.map_congr_left
    intro p _
    by_cases hq : (p.id == pid) = true
    · simp only [Function.comp, hq, if_true]
      simp only [List.filter_filter]
      simp only [Playlist.mk.injEq, and_true, true_and]
      apply List.filter_congr
      intro it _
      simp only [List.any_append, Bool.not_or]
      rw [Bool.and_comm]
    · simp [Function.comp, hq]

theorem addChunks_shape (oracle : ApiAction → Bool) (pid : String) :
    ∀ (chunks : List (List String)) (s : SpotifyState) (tr : List ApiAction),
      ∃ k, k ≤ chunks.length ∧
        addChunks oracle pid chunks (s, tr) =
          ((if k = chunks.length then Except.ok () else Except.error "Spotify API error"),
           (stateAddUris s pid ((chunks.take k).flatten),
            tr ++ (chunks.take k).map (ApiAction.addTracks pid))) := by
  intro chunks
  induction chunks with
  | nil =>
    intro s tr
    refine ⟨0, Nat.le_refl _, ?_⟩
    show M.pure () (s, tr) = _
    rw [M_pure_eq]
    simp [stateAddUris_nil]
  | cons c cs ih =>
    intro s tr
    cases ho : oracle (.addTracks pid c) with
    | false =>
      refine ⟨0, Nat.zero_le _, ?_⟩
      show (spotify_request oracle (.addTracks pid c) (fun s => ((), stateAddUris s pid c)) >>=
        fun _ => addChunks oracle pid cs) (s, tr) = _
      rw [M_bind_error _ _ _ _ _ (spotify_request_false _ _ _ _ ho)]
      simp [stateAddUris_nil]
    | true =>
      obtain ⟨k', hk', heq⟩ := ih (stateAddUris s pid c) (tr ++ [ApiAction.addTracks pid c])
      refine ⟨k' + 1, by simp only [List.length_cons]; omega, ?_⟩
      show (spotify_request oracle (.addTracks pid c) (fun s => ((), stateAddUris s pid c)) >>=
        fun _ => addChunks oracle pid cs) (s, tr) = _
      have hreq : spotify_request oracle (.addTracks pid c)
          (fun s => ((), stateAddUris s pid c)) (s, tr) =
          (.ok (), (stateAddUris s pid c, tr ++ [ApiAction.addTracks pid c])) := by
        rw [spotify_request_true _ _ _ _ ho]
      rw [M_bind_ok _ _ _ _ _ hreq, heq]
      simp only [List.take_succ_cons, List.flatten_cons, List.map_cons, List.length_cons,
        stateAddUris_append, List.append_assoc, List.singleton_append, Nat.add_right_cancel_iff]

theorem removeChunks_shape (oracle : ApiAction → Bool) (pid : String) :
    ∀ (chunks : List (List String)) (s : SpotifyState) (tr : List ApiAction),
      ∃ k, k ≤ chunks.length ∧
        removeChunks oracle pid chunks (s, tr) =
          ((if k = chunks.length then Except.ok () else Except.error "Spotify API error"),
           (stateRemoveUris s pid ((chunks.take k).flatten),
            tr ++ (chunks.take k).map (ApiAction.removeTracks pid))) := by
  intro chunks
  induction chunks with
  | nil =>
    intro s tr
    refine ⟨0, Nat.le_refl _, ?_⟩
    show M.pure () (s, tr) = _
    rw [M_pure_eq]
    simp [stateRemoveUris_nil]
  | cons c cs ih =>
    intro s tr
    cases ho : oracle (.removeTracks pid c) with
    | false =>
      refine ⟨0, Nat.zero_le _, ?_⟩
      show (spotify_request oracle (.removeTracks pid c) (fun s => ((), stateRemoveUris s pid c)) >>=
        fun _ => removeChunks oracle pid cs) (s, tr) = _
      rw [M_bind_error _ _ _ _ _ (spotify_request_false _ _ _ _ ho)]
      simp [stateRemoveUris_nil]
    | true =>
      obtain ⟨k', hk', heq⟩ := ih (stateRemoveUris s pid c) (tr ++ [ApiAction.removeTracks pid c])
      refine ⟨k' + 1, by simp only [List.length_cons]; omega, ?_⟩
      show (spotify_request oracle (.removeTracks pid c) (fun s => ((), stateRemoveUris s pid c)) >>=
        fun _ => removeChunks oracle pid cs) (s, tr) = _
      have hreq : spotify_request oracle (.removeTracks pid c)
          (fun s => ((), stateRemoveUris s pid c)) (s, tr) =
          (.ok (), (stateRemoveUris s pid c, tr ++ [ApiAction.removeTracks pid c])) := by
        rw [spotify_request_true _ _ _ _ ho]
      rw [M_bind_ok _ _ _ _ _ hreq, heq]
      simp only [List.take_succ_cons, List.flatten_cons, List.map_cons, List.length_cons,
        stateRemoveUris_append, List.append_assoc, List.singleton_append, Nat.add_right_cancel_iff]

theorem findAux_shape (oracle : ApiAction → Bool) (ownerId targetName : String) :
    ∀ (fuel offset : Nat) (s : SpotifyState) (tr : List ApiAction),
      ∃ res acts,
        findPlaylistAux oracle ownerId targetName offset fuel (s, tr) = (res, (s, tr ++ acts)) ∧
        (∀ a ∈ acts, ∃ o, a = ApiAction.playlistsPage o) ∧
        (∀ p, res = .ok (some p) →
          p ∈ s.playlists ∧ (p.name == targetName && p.owner == ownerId) = true) := by
  intro fuel
  induction fuel with
  | zero =>
    intro offset s tr
    refine ⟨.ok none, [], ?_, by simp, ?_⟩
    · show M.pure none (s, tr) = _
      rw [M_pure_eq]
      simp
    · intro p h
      simp at h
  | succ n ih =>
    intro offset s tr
    cases ho : oracle (.playlistsPage offset) with
    | false =>
      refine ⟨.error "Spotify API error", [], ?_, by simp, by intro p h; simp at h⟩
      show (spotify_request oracle (.playlistsPage offset) (fun s => (playlistPage s offset, s)) >>=
        fun page => _) (s, tr) = _
      rw [M_bind_error _ _ _ _ _ (spotify_request_false _ _ _ _ ho)]
      simp
    | true =>
      have hreq : spotify_request oracle (.playlistsPage offset)
          (fun s => (playlistPage s offset, s)) (s, tr) =
          (.ok (playlistPage s offset), (s, tr ++ [ApiAction.playlistsPage offset])) := by
        rw [spotify_request_true _ _ _ _ ho]
      rcases hfind : (playlistPage s offset).1.find?
          (fun p => p.name == targetName && p.owner == ownerId) with _ | p
      · by_cases hnext : (playlistPage s offset).2 = true
        · obtain ⟨res, acts', heq, hpages, hok⟩ := ih (offset + 50) s
            (tr ++ [ApiAction.playlistsPage offset])
          refine ⟨res, ApiAction.playlistsPage offset :: acts', ?_, ?_, hok⟩
          · show (spotify_request oracle (.playlistsPage offset)
              (fun s => (playlistPage s offset, s)) >>= fun page =>
                match page.1.find? (fun p => p.name == targetName && p.owner == ownerId) with
                | some p => M.pure (some p)
                | none =>
                  if page.2 then findPlaylistAux oracle ownerId targetName (offset + 50) n
                  else M.pure none) (s, tr) = _
            rw [M_bind_ok _ _ _ _ _ hreq]
            simp only [hfind, hnext, if_true]
            rw [heq]
            simp
          · intro a ha
            rcases List.mem_cons.mp ha with h | h
            · exact ⟨offset, h⟩
            · exact hpages a h
        · refine ⟨.ok none, [ApiAction.playlistsPage offset], ?_, by simp, by intro p h; simp at h⟩
          show (spotify_request oracle (.playlistsPage offset)
              (fun s => (playlistPage s offset, s)) >>= fun page =>
                match page.1.find? (fun p => p.name == targetName && p.owner == ownerId) with
                | some p => M.pure (some p)
                | none =>
                  if page.2 then findPlaylistAux oracle ownerId targetName (offset + 50) n
                  else M.pure none) (s, tr) = _
          rw [M_bind_ok _ _ _ _ _ hreq]
          simp only [hfind, hnext]
          simp [M_pure_eq]
      · refine ⟨.ok (some p), [ApiAction.playlistsPage offset], ?_, by simp, ?_⟩
        · show (spotify_request oracle (.playlistsPage offset)
            (fun s => (playlistPage s offset, s)) >>= fun page =>
              match page.1.find? (fun p => p.name == targetName && p.owner == ownerId) with
              | some p => M.pure (some p)
              | none =>
                if page.2 then findPlaylistAux oracle ownerId targetName (offset + 50) n
                else M.pure none) (s, tr) = _
          rw [M_bind_ok _ _ _ _ _ hreq]
          simp only [hfind]
          rw [M_pure_eq]
        · intro q hq
          have hqp : q = p := by
            simp only [Except.ok.injEq, Option.some.injEq] at hq
            exact hq.symm
          subst hqp
          constructor
          · exact List.mem_of_mem_drop (List.mem_of_mem_take
              (@List.mem_of_find?_eq_some _
                (fun pl => pl.name == targetName && pl.owner == ownerId) q _ hfind))
          · exact @List.find?_some _
              (fun pl => pl.name == targetName && pl.owner == ownerId) q _ hfind

theorem findAux_exact (oracle : ApiAction → Bool) (ownerId targetName : String)
    (hor : ∀ a, oracle a = true) :
    ∀ (fuel offset : Nat) (s : SpotifyState) (tr : List ApiAction),
      s.playlists.length ≤ offset + 50 * fuel → 0 < fuel →
      ∃ acts,
        findPlaylistAux oracle ownerId targetName offset fuel (s, tr) =
          (.ok ((s.playlists.drop offset).find?
            (fun p => p.name == targetName && p.owner == ownerId)), (s, tr ++ acts)) ∧
        (∀ a ∈ acts, ∃ o, a = ApiAction.playlistsPage o) := by
  intro fuel
  induction fuel with
  | zero =>
    intro offset s tr hlen hpos
    exact absurd hpos (by omega)
  | succ n ih =>
    intro offset s tr hlen _
    have hreq : spotify_request oracle (.playlistsPage offset)
        (fun s => (playlistPage s offset, s)) (s, tr) =
        (.ok (playlistPage s offset), (s, tr ++ [ApiAction.playlistsPage offset])) := by
      rw [spotify_request_true _ _ _ _ (hor _)]
    have hsplit : (s.playlists.drop offset).find?
        (fun p => p.name == targetName && p.owner == ownerId) =
        ((playlistPage s offset).1.find?
          (fun p => p.name == targetName && p.owner == ownerId)).or
        ((s.playlists.drop (offset + 50)).find?
          (fun p => p.name == targetName && p.owner == ownerId)) := by
      conv =>
        lhs
        rw [← List.take_append_drop 50 (s.playlists.drop offset)]
      rw [List.find?_append, List.drop_drop]
      rfl
    rcases hfind : (playlistPage s offset).1.find?
        (fun p => p.name == targetName && p.owner == ownerId) with _ | p
    · by_cases hnext : (playlistPage s offset).2 = true
      · have hlt : offset + 50 < s.playlists.length := by
          have : (playlistPage s offset).2 = decide (offset + 50 < s.playlists.length) := rfl
          rw [this] at hnext
          exact of_decide_eq_true hnext
        have hn_pos : 0 < n := by omega
        obtain ⟨acts', heq, hpages⟩ := ih (offset + 50) s
          (tr ++ [ApiAction.playlistsPage offset]) (by omega) hn_pos
        refine ⟨ApiAction.playlistsPage offset :: acts', ?_, ?_⟩
        · show (spotify_request oracle (.playlistsPage offset)
            (fun s => (playlistPage s offset, s)) >>= fun page =>
              match page.1.find? (fun p => p.name == targetName && p.owner == ownerId) with
              | some p => M.pure (some p)
              | none =>
                if page.2 then findPlaylistAux oracle ownerId targetName (offset + 50) n
                else M.pure none) (s, tr) = _
          rw [M_bind_ok _ _ _ _ _ hreq]
          simp only [hfind, hnext, if_true]
          rw [heq, hsplit, hfind]
          simp
        · intro a ha
          rcases List.mem_cons.mp ha with h | h
          · exact ⟨offset, h⟩
          · exact hpages a h
      · have hge : s.playlists.length ≤ offset + 50 := by
          by_contra hc
          push_neg at hc
          exact hnext (decide_eq_true hc)
        have hdrop : s.playlists.drop (offset + 50) = [] :=
          List.drop_eq_nil_of_le hge
        refine ⟨[ApiAction.playlistsPage offset], ?_, by simp⟩
        show (spotify_request oracle (.playlistsPage offset)
            (fun s => (playlistPage s offset, s)) >>= fun page =>
              match page.1.find? (fun p => p.name == targetName && p.owner == ownerId) with
              | some p => M.pure (some p)
              | none =>
                if page.2 then findPlaylistAux oracle ownerId targetName (offset + 50) n
                else M.pure none) (s, tr) = _
        rw [M_bind_ok _ _ _ _ _ hreq]
        simp only [hfind, hnext]
        rw [hsplit, hfind, hdrop]
        simp [M_pure_eq]
    · refine ⟨[ApiAction.playlistsPage offset], ?_, by simp⟩
      show (spotify_request oracle (.playlistsPage offset)
          (fun s => (playlistPage s offset, s)) >>= fun page =>
            match page.1.find? (fun p => p.name == targetName && p.owner == ownerId) with
            | some p => M.pure (some p)
            | none =>
              if page.2 then findPlaylistAux oracle ownerId targetName (offset + 50) n
              else M.pure none) (s, tr) = _
      rw [M_bind_ok _ _ _ _ _ hreq]
      simp only [hfind]
      rw [hsplit, hfind, M_pure_eq]
      rfl

theorem itemsAux_shape (oracle : ApiAction → Bool) (pid : String) :
    ∀ (fuel offset : Nat) (s : SpotifyState) (tr : List ApiAction),
      ∃ res acts,
        paginateItemsAux oracle pid offset fuel (s, tr) = (res, (s, tr ++ acts)) ∧
        (∀ a ∈ acts, ∃ o, a = ApiAction.itemsPage pid o) := by
  intro fuel
  induction fuel with
  | zero =>
    intro offset s tr
    refine ⟨.ok [], [], ?_, by simp⟩
    show M.pure [] (s, tr) = _
    rw [M_pure_eq]
    simp
  | succ n ih =>
    intro offset s tr
    cases ho : oracle (.itemsPage pid offset) with
    | false =>
      refine ⟨.error "Spotify API error", [], ?_, by simp⟩
      show (spotify_request oracle (.itemsPage pid offset) (fun s => (itemPage s pid offset, s)) >>=
        fun page => _) (s, tr) = _
      rw [M_bind_error _ _ _ _ _ (spotify_request_false _ _ _ _ ho)]
      simp
    | true =>
      have hreq : spotify_request oracle (.itemsPage pid offset)
          (fun s => (itemPage s pid offset, s)) (s, tr) =
          (.ok (itemPage s pid offset), (s, tr ++ [ApiAction.itemsPage pid offset])) := by
        rw [spotify_request_true _ _ _ _ ho]
      by_cases hnext : (itemPage s pid offset).2 = true
      · obtain ⟨res', acts', heq, hpages⟩ := ih (offset + 100) s
          (tr ++ [ApiAction.itemsPage pid offset])
        rcases res' with e | items'
        · refine ⟨.error e, ApiAction.itemsPage pid offset :: acts', ?_, ?_⟩
          · show (spotify_request oracle (.itemsPage pid offset)
              (fun s => (itemPage s pid offset, s)) >>= fun page =>
                if page.2 then
                  (paginateItemsAux oracle pid (offset + 100) n >>= fun rest =>
                    M.pure (page.1 ++ rest))
                else M.pure page.1) (s, tr) = _
            rw [M_bind_ok _ _ _ _ _ hreq]
            simp only [hnext, if_true]
            rw [M_bind_error _ _ _ _ _ heq]
            simp
          · intro a ha
            rcases List.mem_cons.mp ha with h | h
            · exact ⟨offset, h⟩
            · exact hpages a h
        · refine ⟨.ok ((itemPage s pid offset).1 ++ items'),
            ApiAction.itemsPage pid offset :: acts', ?_, ?_⟩
          · show (spotify_request oracle (.itemsPage pid offset)
              (fun s => (itemPage s pid offset, s)) >>= fun page =>
                if page.2 then
                  (paginateItemsAux oracle pid (offset + 100) n >>= fun rest =>
                    M.pure (page.1 ++ rest))
                else M.pure page.1) (s, tr) = _
            rw [M_bind_ok _ _ _ _ _ hreq]
            simp only [hnext, if_true]
            rw [M_bind_ok _ _ _ _ _ heq, M_pure_eq]
            simp
          · intro a ha
            rcases List.mem_cons.mp ha with h | h
            · exact ⟨offset, h⟩
            · exact hpages a h
      · refine ⟨.ok (itemPage s pid offset).1, [ApiAction.itemsPage pid offset], ?_, by simp⟩
        show (spotify_request oracle (.itemsPage pid offset)
            (fun s => (itemPage s pid offset, s)) >>= fun page =>
              if page.2 then
                (paginateItemsAux oracle pid (offset + 100) n >>= fun rest =>
                  M.pure (page.1 ++ rest))
              else M.pure page.1) (s, tr) = _
        rw [M_bind_ok _ _ _ _ _ hreq]
        simp only [hnext]
        simp [M_pure_eq]

theorem itemsAux_exact (oracle : ApiAction → Bool) (pid : String)
    (hor : ∀ a, oracle a = true) :
    ∀ (fuel offset : Nat) (s : SpotifyState) (tr : List ApiAction),
      (itemsOf s pid).length ≤ offset + 100 * fuel → 0 < fuel →
      ∃ acts,
        paginateItemsAux oracle pid offset fuel (s, tr) =
          (.ok ((itemsOf s pid).drop offset), (s, tr ++ acts)) ∧
        (∀ a ∈ acts, ∃ o, a = ApiAction.itemsPage pid o) := by
  intro fuel
  induction fuel with
  | zero =>
    intro offset s tr hlen hpos
    exact absurd hpos (by omega)
  | succ n ih =>
    intro offset s tr hlen _
    have hreq : spotify_request oracle (.itemsPage pid offset)
        (fun s => (itemPage s pid offset, s)) (s, tr) =
        (.ok (itemPage s pid offset), (s, tr ++ [ApiAction.itemsPage pid offset])) := by
      rw [spotify_request_true _ _ _ _ (hor _)]
    by_cases hnext : (itemPage s pid offset).2 = true
    · have hlt : offset + 100 < (itemsOf s pid).length := of_decide_eq_true hnext
      have hn_pos : 0 < n := by omega
      obtain ⟨acts', heq, hpages⟩ := ih (offset + 100) s
        (tr ++ [ApiAction.itemsPage pid offset]) (by omega) hn_pos
      refine ⟨ApiAction.itemsPage pid offset :: acts', ?_, ?_⟩
      · show (spotify_request oracle (.itemsPage pid offset)
          (fun s => (itemPage s pid offset, s)) >>= fun page =>
            if page.2 then
              (paginateItemsAux oracle pid (offset + 100) n >>= fun rest =>
                M.pure (page.1 ++ rest))
            else M.pure page.1) (s, tr) = _
        rw [M_bind_ok _ _ _ _ _ hreq]
        simp only [hnext, if_true]
        rw [M_bind_ok _ _ _ _ _ heq, M_pure_eq]
        have hjoin : (itemPage s pid offset).1 ++ (itemsOf s pid).drop (offset + 100) =
            (itemsOf s pid).drop offset := by
          have h1 : (itemPage s pid offset).1 = ((itemsOf s pid).drop offset).take 100 := rfl
          rw [h1, ← List.drop_drop]
          exact List.take_append_drop 100 ((itemsOf s pid).drop offset)
        rw [hjoin]
        simp
      · intro a ha
        rcases List.mem_cons.mp ha with h | h
        · exact ⟨offset, h⟩
        · exact hpages a h
    · have hge : (itemsOf s pid).length ≤ offset + 100 := by
        by_contra hc
        push_neg at hc
        exact hnext (decide_eq_true hc)
      refine ⟨[ApiAction.itemsPage pid offset], ?_, by simp⟩
      show (spotify_request oracle (.itemsPage pid offset)
          (fun s => (itemPage s pid offset, s)) >>= fun page =>
            if page.2 then
              (paginateItemsAux oracle pid (offset + 100) n >>= fun rest =>
                M.pure (page.1 ++ rest))
            else M.pure page.1) (s, tr) = _
      rw [M_bind_ok _ _ _ _ _ hreq]
      simp only [hnext]
      have hpage : (itemPage s pid offset).1 = (itemsOf s pid).drop offset := by
        have h1 : (itemPage s pid offset).1 = ((itemsOf s pid).drop offset).take 100 := rfl
        rw [h1]
        apply List.take_of_length_le
        simp only [List.length_drop]
        omega
      simp [M_pure_eq, hpage]

theorem find_playlist_shape (oracle : ApiAction → Bool) (ownerId targetName : String)
    (s : SpotifyState) (tr : List ApiAction) :
    ∃ res acts,
      find_playlist_by_name_owner oracle ownerId targetName (s, tr) = (res, (s, tr ++ acts)) ∧
      (∀ a ∈ acts, ∃ o, a = ApiAction.playlistsPage o) ∧
      (∀ p, res = .ok (some p) →
        p ∈ s.playlists ∧ (p.name == targetName && p.owner == ownerId) = true) := by
  obtain ⟨res, acts, heq, hpages, hok⟩ :=
    findAux_shape oracle ownerId targetName (s.playlists.length + 1) 0 s tr
  refine ⟨res, acts, ?_, hpages, hok⟩
  show (M.getState >>= fun s =>
    findPlaylistAux oracle ownerId targetName 0 (s.playlists.length + 1)) (s, tr) = _
  rw [M_bind_ok _ _ _ _ _ (getState_eq (s, tr)), heq]

theorem find_playlist_exact (oracle : ApiAction → Bool) (ownerId targetName : String)
    (hor : ∀ a, oracle a = true) (s : SpotifyState) (tr : List ApiAction) :
    ∃ acts,
      find_playlist_by_name_owner oracle ownerId targetName (s, tr) =
        (.ok (s.playlists.find? (fun p => p.name == targetName && p.owner == ownerId)),
         (s, tr ++ acts)) ∧
      (∀ a ∈ acts, ∃ o, a = ApiAction.playlistsPage o) := by
  obtain ⟨acts, heq, hpages⟩ :=
    findAux_exact oracle ownerId targetName hor (s.playlists.length + 1) 0 s tr
      (by omega) (by omega)
  refine ⟨acts, ?_, hpages⟩
  show (M.getState >>= fun s =>
    findPlaylistAux oracle ownerId targetName 0 (s.playlists.length + 1)) (s, tr) = _
  rw [M_bind_ok _ _ _ _ _ (getState_eq (s, tr)), heq, List.drop_zero]

theorem items_exact (oracle : ApiAction → Bool) (pid : String)
    (hor : ∀ a, oracle a = true) (s : SpotifyState) (tr : List ApiAction) :
    ∃ acts,
      paginate_playlist_items oracle pid (s, tr) = (.ok (itemsOf s pid), (s, tr ++ acts)) ∧
      (∀ a ∈ acts, ∃ o, a = ApiAction.itemsPage pid o) := by
  obtain ⟨acts, heq, hpages⟩ :=
    itemsAux_exact oracle pid hor ((itemsOf s pid).length + 1) 0 s tr (by omega) (by omega)
  refine ⟨acts, ?_, hpages⟩
  show (M.getState >>= fun s =>
    paginateItemsAux oracle pid 0 ((itemsOf s pid).length + 1)) (s, tr) = _
  rw [M_bind_ok _ _ _ _ _ (getState_eq (s, tr)), heq, List.drop_zero]

theorem ensure_shape (oracle : ApiAction → Bool) (userId name desc : String)
    (s : SpotifyState) (tr : List ApiAction) :
    ∃ res s' acts,
      ensure_junk_drawer_playlist oracle userId name desc (s, tr) = (res, (s', tr ++ acts)) ∧
      (∀ a ∈ acts, (∃ o, a = ApiAction.playlistsPage o) ∨
        a = ApiAction.createPlaylist userId name desc) ∧
      (∀ pid u, s'.plHasUri pid u = s.plHasUri pid u) ∧
      (∀ pid, hasId s pid = true → hasId s' pid = true) ∧
      (∀ tid, res = .ok tid → hasId s' tid = true) := by
  obtain ⟨resF, actsF, heqF, hpagesF, hokF⟩ :=
    find_playlist_shape oracle userId name s tr
  rcases resF with e | v
  · refine ⟨.error e, s, actsF, ?_, fun a ha => Or.inl (hpagesF a ha),
      fun _ _ => rfl, fun _ h => h, ?_⟩
    · show (find_playlist_by_name_owner oracle userId name >>= fun existing =>
        match existing with
        | some p => M.pure p.id
        | none => spotify_request oracle (.createPlaylist userId name desc)
            (fun s => ((stateCreate s userId name desc).2, (stateCreate s userId name desc).1)))
          (s, tr) = _
      rw [M_bind_error _ _ _ _ _ heqF]
    · intro tid h
      cases h
  · rcases v with _ | p
    · cases ho : oracle (.createPlaylist userId name desc) with
      | false =>
        refine ⟨.error "Spotify API error", s, actsF, ?_, fun a ha => Or.inl (hpagesF a ha),
          fun _ _ => rfl, fun _ h => h, by intro tid h; cases h⟩
        show (find_playlist_by_name_owner oracle userId name >>= fun existing =>
          match existing with
          | some p => M.pure p.id
          | none => spotify_request oracle (.createPlaylist userId name desc)
              (fun s => ((stateCreate s userId name desc).2, (stateCreate s userId name desc).1)))
            (s, tr) = _
        rw [M_bind_ok _ _ _ _ _ heqF]
        simp only
        rw [spotify_request_false _ _ _ _ ho]
      | true =>
        refine ⟨.ok (newPlaylistId s), (stateCreate s userId name desc).1,
          actsF ++ [ApiAction.createPlaylist userId name desc], ?_, ?_, ?_, ?_, ?_⟩
        · show (find_playlist_by_name_owner oracle userId name >>= fun existing =>
            match existing with
            | some p => M.pure p.id
            | none => spotify_request oracle (.createPlaylist userId name desc)
                (fun s => ((stateCreate s userId name desc).2, (stateCreate s userId name desc).1)))
              (s, tr) = _
          rw [M_bind_ok _ _ _ _ _ heqF]
          simp only
          rw [spotify_request_true _ _ _ _ ho]
          simp [stateCreate]
        · intro a ha
          rcases List.mem_append.mp ha with h | h
          · exact Or.inl (hpagesF a h)
          · simp only [List.mem_singleton] at h
            exact Or.inr h
        · intro pid u
          exact plHasUri_create s userId name desc pid u
        · intro pid h
          exact hasId_create_mono s userId name desc pid h
        · intro tid h
          have htid : tid = newPlaylistId s := by
            simp only [Except.ok.injEq] at h
            exact h.symm
          subst htid
          unfold hasId
          show ((s.playlists ++ [newPlaylist s userId name desc]).any
            fun p => p.id == newPlaylistId s) = true
          rw [List.any_append]
          have : ((newPlaylist s userId name desc).id == newPlaylistId s) = true := by
            simp [newPlaylist]
          simp [this]
    · refine ⟨.ok p.id, s, actsF, ?_, fun a ha => Or.inl (hpagesF a ha),
        fun _ _ => rfl, fun _ h => h, ?_⟩
      · show (find_playlist_by_name_owner oracle userId name >>= fun existing =>
          match existing with
          | some q => M.pure q.id
          | none => spotify_request oracle (.createPlaylist userId name desc)
              (fun s => ((stateCreate s userId name desc).2, (stateCreate s userId name desc).1)))
            (s, tr) = _
        rw [M_bind_ok _ _ _ _ _ heqF]
        simp only
        rw [M_pure_eq]
      · intro tid h
        have htid : tid = p.id := by
          simp only [Except.ok.injEq] at h
          exact h.symm
        subst htid
        obtain ⟨hmem, _⟩ := hokF p rfl
        unfold hasId
        rw [List.any_eq_true]
        exact ⟨p, hmem, beq_self_eq_true _⟩

theorem ensure_found (oracle : ApiAction → Bool) (userId name desc : String)
    (hor : ∀ a, oracle a = true) (s : SpotifyState) (tr : List ApiAction) (p : Playlist)
    (hfind : s.playlists.find? (fun q => q.name == name && q.owner == userId) = some p) :
    ∃ acts, ensure_junk_drawer_playlist oracle userId name desc (s, tr) =
      (.ok p.id, (s, tr ++ acts)) ∧ (∀ a ∈ acts, ∃ o, a = ApiAction.playlistsPage o) := by
  obtain ⟨acts, heq, hpages⟩ := find_playlist_exact oracle userId name hor s tr
  refine ⟨acts, ?_, hpages⟩
  show (find_playlist_by_name_owner oracle userId name >>= fun existing =>
    match existing with
    | some q => M.pure q.id
    | none => spotify_request oracle (.createPlaylist userId name desc)
        (fun s => ((stateCreate s userId name desc).2, (stateCreate s userId name desc).1)))
      (s, tr) = _
  rw [M_bind_ok _ _ _ _ _ heq]
  simp only [hfind]
  rw [M_pure_eq]

theorem ensure_create (oracle : ApiAction → Bool) (userId name desc : String)
    (hor : ∀ a, oracle a = true) (s : SpotifyState) (tr : List ApiAction)
    (hfind : s.playlists.find? (fun q => q.name == name && q.owner == userId) = none) :
    ∃ acts, ensure_junk_drawer_playlist oracle userId name desc (s, tr) =
      (.ok (newPlaylistId s), ((stateCreate s userId name desc).1, tr ++ acts)) := by
  obtain ⟨acts, heq, hpages⟩ := find_playlist_exact oracle userId name hor s tr
  refine ⟨acts ++ [ApiAction.createPlaylist userId name desc], ?_⟩
  show (find_playlist_by_name_owner oracle userId name >>= fun existing =>
    match existing with
    | some q => M.pure q.id
    | none => spotify_request oracle (.createPlaylist userId name desc)
        (fun s => ((stateCreate s userId name desc).2, (stateCreate s userId name desc).1)))
      (s, tr) = _
  rw [M_bind_ok _ _ _ _ _ heq]
  simp only [hfind]
  rw [spotify_request_true _ _ _ _ (hor _)]
  simp [stateCreate]

/-- C7: with no concurrent writer and a responsive service, invoking
ensure-exists twice with the same name and owner creates at most one
playlist in total (the second call leaves the state unchanged), and the
second invocation returns the identifier the first one returned. -/
theorem claim_C7_ensure_idempotent (oracle : ApiAction → Bool) (userId name desc : String)
    (s : SpotifyState) (tr : List ApiAction) (hor : ∀ a, oracle a = true) :
    ∃ tid s1 tr1 tr2,
      ensure_junk_drawer_playlist oracle userId name desc (s, tr) = (.ok tid, (s1, tr1)) ∧
      ensure_junk_drawer_playlist oracle userId name desc (s1, tr1) = (.ok tid, (s1, tr2)) ∧
      (s1.playlists = s.playlists ∨
        ∃ p, s1.playlists = s.playlists ++ [p] ∧ p.id = tid ∧ p.name = name ∧
          p.owner = userId) := by
  rcases hfind : s.playlists.find? (fun q => q.name == name && q.owner == userId) with _ | p
  · obtain ⟨acts1, heq1⟩ := ensure_create oracle userId name desc hor s tr hfind
    have hfind2 : (stateCreate s userId name desc).1.playlists.find?
        (fun q => q.name == name && q.owner == userId) = some (newPlaylist s userId name desc) := by
      show (s.playlists ++ [newPlaylist s userId name desc]).find?
        (fun q => q.name == name && q.owner == userId) = _
      rw [List.find?_append, hfind]
      have hone : List.find? (fun q => q.name == name && q.owner == userId)
          [newPlaylist s userId name desc] = some (newPlaylist s userId name desc) :=
        List.find?_cons_of_pos _ (by simp [newPlaylist])
      rw [hone]
      rfl
    obtain ⟨acts2, heq2, _⟩ := ensure_found oracle userId name desc hor
      (stateCreate s userId name desc).1 (tr ++ acts1) (newPlaylist s userId name desc) hfind2
    refine ⟨newPlaylistId s, (stateCreate s userId name desc).1, tr ++ acts1,
      (tr ++ acts1) ++ acts2, heq1, ?_, ?_⟩
    · rw [heq2]
      rfl
    · exact Or.inr ⟨newPlaylist s userId name desc, rfl, rfl, rfl, rfl⟩
  · obtain ⟨acts1, heq1, _⟩ := ensure_found oracle userId name desc hor s tr p hfind
    obtain ⟨acts2, heq2, _⟩ := ensure_found oracle userId name desc hor s (tr ++ acts1) p hfind
    exact ⟨p.id, s, tr ++ acts1, (tr ++ acts1) ++ acts2, heq1, heq2, Or.inl rfl⟩

/-- Witness for C7 on a concrete empty account. -/
theorem claim_C7_ensure_idempotent_witness :
    ∃ tid s1 tr1 tr2,
      ensure_junk_drawer_playlist (fun _ => true) "me" "23 Junk Drawer" "d"
          ({ userId := "me", playlists := [], nextId := 0 }, []) = (.ok tid, (s1, tr1)) ∧
      ensure_junk_drawer_playlist (fun _ => true) "me" "23 Junk Drawer" "d"
          (s1, tr1) = (.ok tid, (s1, tr2)) ∧
      (s1.playlists = ({ userId := "me", playlists := [], nextId := 0 } :
          SpotifyState).playlists ∨
        ∃ p, s1.playlists = ({ userId := "me", playlists := [], nextId := 0 } :
            SpotifyState).playlists ++ [p] ∧ p.id = tid ∧ p.name = "23 Junk Drawer" ∧
          p.owner = "me") :=
  claim_C7_ensure_idempotent (fun _ => true) "me" "23 Junk Drawer" "d"
    { userId := "me", playlists := [], nextId := 0 } [] (fun _ => rfl)

/-! ### Theorems: the empty-run frame property (C8) -/

/-- C8: when the aging filter selects zero eligible tracks, the pipeline
performs no playlist creation, no add or remove mutation and no
description update on any playlist (the final remote state is the
initial one and the trace holds no mutating request), and exits
normally with success. -/
theorem claim_C8_empty_run_frame (oracle : ApiAction → Bool) (cfg : Config) (today : Date)
    (runTs : String) (s : SpotifyState) (tr0 : List ApiAction) (sp : Playlist)
    (hor : ∀ a, oracle a = true)
    (hfind : s.playlists.find?
      (fun p => p.name == cfg.sourcePlaylistName && p.owner == s.userId) = some sp)
    (hempty : collectCandidatesE (subDays today cfg.durationDays) (itemsOf s sp.id) = .ok []) :
    ∃ acts, runPipeline oracle cfg today runTs (s, tr0) = (.ok (), (s, tr0 ++ acts)) ∧
      ∀ a ∈ acts, a.isMutation = false := by
  have h1 : fetch_access_token oracle (s, tr0) =
      (.ok "access_token", (s, tr0 ++ [ApiAction.tokenRequest])) := by
    unfold fetch_access_token
    rw [spotify_request_true _ _ _ _ (hor _)]
  have h2 : get_current_user oracle (s, tr0 ++ [ApiAction.tokenRequest]) =
      (.ok s.userId, (s, tr0 ++ [ApiAction.tokenRequest] ++ [ApiAction.getUserRequest])) := by
    unfold get_current_user
    rw [spotify_request_true _ _ _ _ (hor _)]
  obtain ⟨pageActs, h3, h3pages⟩ := find_playlist_exact oracle s.userId cfg.sourcePlaylistName
    hor s (tr0 ++ [ApiAction.tokenRequest] ++ [ApiAction.getUserRequest])
  obtain ⟨itemActs, h4, h4pages⟩ := items_exact oracle sp.id hor s
    (tr0 ++ [ApiAction.tokenRequest] ++ [ApiAction.getUserRequest] ++ pageActs)
  refine ⟨[ApiAction.tokenRequest] ++ [ApiAction.getUserRequest] ++ pageActs ++ itemActs,
    ?_, ?_⟩
  · unfold runPipeline
    rw [M_bind_ok _ _ _ _ _ h1, M_bind_ok _ _ _ _ _ h2, M_bind_ok _ _ _ _ _ h3]
    simp only [hfind]
    rw [M_bind_ok _ _ _ _ _ h4]
    simp only [hempty, List.isEmpty_nil, if_true]
    rw [M_pure_eq]
    simp [List.append_assoc]
  · intro a ha
    simp only [List.append_assoc, List.mem_append, List.mem_singleton] at ha
    rcases ha with h | h | h | h
    · subst h; rfl
    · subst h; rfl
    · obtain ⟨o, ho⟩ := h3pages a h
      subst ho; rfl
    · obtain ⟨o, ho⟩ := h4pages a h
      subst ho; rfl

/-- Witness for C8 on a concrete account whose only track is too recent. -/
theorem claim_C8_empty_run_frame_witness :
    ∃ acts, runPipeline (fun _ => true) ⟨"Source", 0⟩ ⟨2025, 10, 12⟩ "TS"
        ((⟨"me", [⟨"src", "Source", "me", "",
          [⟨some "2025-10-13T00:00:00Z", some ⟨some "spotify:c"⟩⟩], false⟩], 0⟩ :
            SpotifyState), []) =
      (.ok (), ((⟨"me", [⟨"src", "Source", "me", "",
          [⟨some "2025-10-13T00:00:00Z", some ⟨some "spotify:c"⟩⟩], false⟩], 0⟩ :
            SpotifyState), [] ++ acts)) ∧
      ∀ a ∈ acts, a.isMutation = false :=
  claim_C8_empty_run_frame (fun _ => true) ⟨"Source", 0⟩ ⟨2025, 10, 12⟩ "TS"
    ⟨"me", [⟨"src", "Source", "me", "",
      [⟨some "2025-10-13T00:00:00Z", some ⟨some "spotify:c"⟩⟩], false⟩], 0⟩ []
    ⟨"src", "Source", "me", "",
      [⟨some "2025-10-13T00:00:00Z", some ⟨some "spotify:c"⟩⟩], false⟩
    (fun _ => rfl) (by rfl) (by rfl)

/-! ### Theorems: per-bucket move ordering (C3) -/

theorem chunked_flatten_100 (uris : List String) : (chunked uris 100).flatten = uris :=
  chunkedAux_join 100 (by omega) uris.length uris (Nat.le_refl _)

theorem mem_chunk_of_mem {u : String} {uris : List String} (hu : u ∈ uris) :
    ∃ ch ∈ chunked uris 100, u ∈ ch := by
  rw [← chunked_flatten_100 uris] at hu
  exact List.mem_flatten.mp hu

theorem pair_eq_inv {α β γ : Type} {a c : α} {b d : β} {e f : γ}
    (h : (a, (b, e)) = (c, (d, f))) : a = c ∧ b = d ∧ e = f := by
  rw [Prod.mk.injEq, Prod.mk.injEq] at h
  exact ⟨h.1, h.2.1, h.2.2⟩

/-- C3: in any single-bucket processing step (the loop body of `main`,
executed once per bucket in every run), the trace extension splits into a
front holding no removal request and a back holding no append request
(so every append precedes every removal); any removal recorded targets
the source playlist and happens only after every batch of the bucket's
URIs was successfully appended to the resolved destination; and if the
step fails after the appends completed but before any removal was
performed, every track of the bucket that was in the source is left
present in both the source and the destination. -/
theorem claim_C3_move_ordering (oracle : ApiAction → Bool)
    (userId sourceId sourceName runTs suffix : String) (tracks : List (String × Date))
    (s : SpotifyState) (tr : List ApiAction) (res : Except String Nat)
    (s' : SpotifyState) (tr' : List ApiAction)
    (hrun : processBucket oracle userId sourceId sourceName runTs suffix tracks (s, tr) =
      (res, (s', tr'))) :
    ∃ front back,
      tr' = tr ++ front ++ back ∧
      (∀ a ∈ front, ∀ pid c, a ≠ ApiAction.removeTracks pid c) ∧
      (∀ a ∈ back, ∀ pid c, a ≠ ApiAction.addTracks pid c) ∧
      (∀ pid c, ApiAction.removeTracks pid c ∈ back →
        pid = sourceId ∧ ∃ tid, ∀ ch ∈ chunked (tracks.map Prod.fst) 100,
          ApiAction.addTracks tid ch ∈ front) ∧
      (∀ tid,
        (∀ ch ∈ chunked (tracks.map Prod.fst) 100,
          ApiAction.addTracks tid ch ∈ front ++ back) →
        (∀ pid c, ApiAction.removeTracks pid c ∉ front ++ back) →
        ∀ u ∈ tracks.map Prod.fst, s.plHasUri sourceId u = true →
          s'.plHasUri sourceId u = true ∧ s'.plHasUri tid u = true) := by
  obtain ⟨resE, s_E, actsE, heqE, hactsE, hvalsE, hhasE, hokE⟩ :=
    ensure_shape oracle userId (bucketPlaylistName suffix)
      (bucketBaseDescription suffix sourceName) s tr
  unfold processBucket add_tracks_to_playlist remove_tracks_from_playlist
    update_playlist_description at hrun
  rcases resE with e | tid
  · -- ensure failed
    rw [M_bind_error _ _ _ _ _ heqE] at hrun
    obtain ⟨hres, hs', htr'⟩ := pair_eq_inv hrun
    refine ⟨actsE, [], ?_, ?_, by simp, by simp, ?_⟩
    · rw [← htr']
      simp
    · intro a ha pid c
      rcases hactsE a ha with ⟨o, ho⟩ | ho <;> subst ho <;> intro hcontra <;> cases hcontra
    · intro tid hadds _ u hu _
      obtain ⟨ch, hch, _⟩ := mem_chunk_of_mem hu
      have := hadds ch hch
      simp only [List.append_nil] at this
      rcases hactsE _ this with ⟨o, ho⟩ | ho <;> cases ho
  · -- ensure returned the target id
    rw [M_bind_ok _ _ _ _ _ heqE] at hrun
    obtain ⟨k, hk, heqA⟩ :=
      addChunks_shape oracle tid (chunked (tracks.map Prod.fst) 100) s_E (tr ++ actsE)
    by_cases hkfull : k = (chunked (tracks.map Prod.fst) 100).length
    · -- add phase completed
      subst hkfull
      rw [if_pos rfl, List.take_length] at heqA
      rw [M_bind_ok _ _ _ _ _ heqA] at hrun
      obtain ⟨k2, hk2, heqR⟩ := removeChunks_shape oracle sourceId
        (chunked (tracks.map Prod.fst) 100)
        (stateAddUris s_E tid (chunked (tracks.map Prod.fst) 100).flatten)
        (tr ++ actsE ++ (chunked (tracks.map Prod.fst) 100).map (ApiAction.addTracks tid))
      by_cases hk2full : k2 = (chunked (tracks.map Prod.fst) 100).length
      · -- remove phase completed
        subst hk2full
        rw [if_pos rfl, List.take_length] at heqR
        rw [M_bind_ok _ _ _ _ _ heqR] at hrun
        cases ho : oracle (ApiAction.updateDescription tid
            (bucketRunDescription suffix sourceName runTs (tracks.map Prod.fst).length)) with
        | false =>
          rw [M_bind_error _ _ _ _ _ (spotify_request_false _ _ _ _ ho)] at hrun
          obtain ⟨hres, hs', htr'⟩ := pair_eq_inv hrun
          refine ⟨actsE ++ (chunked (tracks.map Prod.fst) 100).map (ApiAction.addTracks tid),
            (chunked (tracks.map Prod.fst) 100).map (ApiAction.removeTracks sourceId),
            ?_, ?_, ?_, ?_, ?_⟩
          · rw [← htr']
            simp [List.append_assoc]
          · intro a ha pid c
            rcases List.mem_append.mp ha with h | h
            · rcases hactsE a h with ⟨o, hoa⟩ | hoa <;> subst hoa <;>
                intro hcontra <;> cases hcontra
            · obtain ⟨ch, _, hch⟩ := List.mem_map.mp h
              subst hch
              intro hcontra
              cases hcontra
          · intro a ha pid c
            obtain ⟨ch, _, hch⟩ := List.mem_map.mp ha
            subst hch
            intro hcontra
            cases hcontra
          · intro pid c hmem
            obtain ⟨ch, hchmem, hch⟩ := List.mem_map.mp hmem
            have hpid : pid = sourceId := by
              cases hch
              rfl
            refine ⟨hpid, tid, ?_⟩
            intro ch2 hch2
            exact List.mem_append.mpr (Or.inr (List.mem_map_of_mem _ hch2))
          · intro tid' hadds hnorem u hu hsrc
            obtain ⟨ch, hchmem, _⟩ := mem_chunk_of_mem hu
            exact absurd (List.mem_append.mpr (Or.inr (List.mem_map_of_mem _ hchmem)))
              (hnorem sourceId ch)
        | true =>
          rw [M_bind_ok _ _ _ _ _ (spotify_request_true _ _ _ _ ho), M_pure_eq] at hrun
          obtain ⟨hres, hs', htr'⟩ := pair_eq_inv hrun
          refine ⟨actsE ++ (chunked (tracks.map Prod.fst) 100).map (ApiAction.addTracks tid),
            (chunked (tracks.map Prod.fst) 100).map (ApiAction.removeTracks sourceId) ++
              [ApiAction.updateDescription tid
                (bucketRunDescription suffix sourceName runTs (tracks.map Prod.fst).length)],
            ?_, ?_, ?_, ?_, ?_⟩
          · rw [← htr']
            simp [List.append_assoc]
          · intro a ha pid c
            rcases List.mem_append.mp ha with h | h
            · rcases hactsE a h with ⟨o, hoa⟩ | hoa <;> subst hoa <;>
                intro hcontra <;> cases hcontra
            · obtain ⟨ch, _, hch⟩ := List.mem_map.mp h
              subst hch
              intro hcontra
              cases hcontra
          · intro a ha pid c
            rcases List.mem_append.mp ha with h | h
            · obtain ⟨ch, _, hch⟩ := List.mem_map.mp h
              subst hch
              intro hcontra
              cases hcontra
            · simp only [List.mem_singleton] at h
              subst h
              intro hcontra
              cases hcontra
          · intro pid c hmem
            rcases List.mem_append.mp hmem with h | h
            · obtain ⟨ch, hchmem, hch⟩ := List.mem_map.mp h
              have hpid : pid = sourceId := by
                cases hch
                rfl
              refine ⟨hpid, tid, ?_⟩
              intro ch2 hch2
              exact List.mem_append.mpr (Or.inr (List.mem_map_of_mem _ hch2))
            · simp only [List.mem_singleton] at h
              cases h
          · intro tid' hadds hnorem u hu hsrc
            obtain ⟨ch, hchmem, _⟩ := mem_chunk_of_mem hu
            exact absurd (List.mem_append.mpr (Or.inr (List.mem_append.mpr
              (Or.inl (List.mem_map_of_mem _ hchmem))))) (hnorem sourceId ch)
      · -- remove phase failed partway
        rw [if_neg hk2full] at heqR
        rw [M_bind_error _ _ _ _ _ heqR] at hrun
        obtain ⟨hres, hs', htr'⟩ := pair_eq_inv hrun
        refine ⟨actsE ++ (chunked (tracks.map Prod.fst) 100).map (ApiAction.addTracks tid),
          ((chunked (tracks.map Prod.fst) 100).take k2).map (ApiAction.removeTracks sourceId),
          ?_, ?_, ?_, ?_, ?_⟩
        · rw [← htr']
          simp [List.append_assoc]
        · intro a ha pid c
          rcases List.mem_append.mp ha with h | h
          · rcases hactsE a h with ⟨o, hoa⟩ | hoa <;> subst hoa <;>
              intro hcontra <;> cases hcontra
          · obtain ⟨ch, _, hch⟩ := List.mem_map.mp h
            subst hch
            intro hcontra
            cases hcontra
        · intro a ha pid c
          obtain ⟨ch, _, hch⟩ := List.mem_map.mp ha
          subst hch
          intro hcontra
          cases hcontra
        · intro pid c hmem
          obtain ⟨ch, hchmem, hch⟩ := List.mem_map.mp hmem
          have hpid : pid = sourceId := by
            cases hch
            rfl
          refine ⟨hpid, tid, ?_⟩
          intro ch2 hch2
          exact List.mem_append.mpr (Or.inr (List.mem_map_of_mem _ hch2))
        · intro tid' hadds hnorem u hu hsrc
          by_cases hk20 : k2 = 0
          · subst hk20
            have hs'A : s' = stateAddUris s_E tid (chunked (tracks.map Prod.fst) 100).flatten := by
              rw [← hs']
              simp [stateRemoveUris_nil]
            have htid' : tid' = tid := by
              obtain ⟨ch, hchmem, _⟩ := mem_chunk_of_mem hu
              have hmem := hadds ch hchmem
              rcases List.mem_append.mp hmem with h | h
              · rcases List.mem_append.mp h with h2 | h2
                · rcases hactsE _ h2 with ⟨o, hoa⟩ | hoa <;> cases hoa
                · obtain ⟨ch2, _, hch2⟩ := List.mem_map.mp h2
                  injection hch2 with h3 _
                  exact h3.symm
              · simp only [List.take_zero, List.map_nil] at h
                cases h
            subst htid'
            constructor
            · rw [hs'A]
              apply plHasUri_addUris_mono
              rw [hvalsE]
              exact hsrc
            · rw [hs'A]
              apply plHasUri_addUris_self
              · exact hokE tid' rfl
              · rw [chunked_flatten_100]
                exact hu
          · exfalso
            obtain ⟨ch, hchmem, _⟩ := mem_chunk_of_mem hu
            rcases hchunks : chunked (tracks.map Prod.fst) 100 with _ | ⟨c, cs⟩
            · rw [hchunks] at hchmem
              cases hchmem
            · have hhead : c ∈ (chunked (tracks.map Prod.fst) 100).take k2 := by
                rw [hchunks]
                rcases k2 with _ | k2'
                · exact absurd rfl hk20
                · simp [List.take_succ_cons]
              exact (hnorem sourceId c) (List.mem_append.mpr
                (Or.inr (List.mem_map_of_mem _ hhead)))
    · -- add phase failed partway
      rw [if_neg hkfull] at heqA
      rw [M_bind_error _ _ _ _ _ heqA] at hrun
      obtain ⟨hres, hs', htr'⟩ := pair_eq_inv hrun
      refine ⟨actsE ++ ((chunked (tracks.map Prod.fst) 100).take k).map (ApiAction.addTracks tid),
        [], ?_, ?_, by simp, by simp, ?_⟩
      · rw [← htr']
        simp [List.append_assoc]
      · intro a ha pid c
        rcases List.mem_append.mp ha with h | h
        · rcases hactsE a h with ⟨o, hoa⟩ | hoa <;> subst hoa <;>
            intro hcontra <;> cases hcontra
        · obtain ⟨ch, _, hch⟩ := List.mem_map.mp h
          subst hch
          intro hcontra
          cases hcontra
      · intro tid' hadds hnorem u hu hsrc
        obtain ⟨ch, hchmem, hu_ch⟩ := mem_chunk_of_mem hu
        have hmem := hadds ch hchmem
        simp only [List.append_nil] at hmem
        rcases List.mem_append.mp hmem with h | h
        · exfalso
          rcases hactsE _ h with ⟨o, hoa⟩ | hoa <;> cases hoa
        · obtain ⟨ch2, hch2mem, hch2⟩ := List.mem_map.mp h
          injection hch2 with h3 h4
          have htid' : tid' = tid := h3.symm
          subst htid'
          have hu_take : u ∈ ((chunked (tracks.map Prod.fst) 100).take k).flatten := by
            apply List.mem_flatten.mpr
            refine ⟨ch2, hch2mem, ?_⟩
            rw [h4]
            exact hu_ch
          constructor
          · rw [← hs']
            apply plHasUri_addUris_mono
            rw [hvalsE]
            exact hsrc
          · rw [← hs']
            apply plHasUri_addUris_self
            · exact hokE tid' rfl
            · exact hu_take


/-- Witness for C3 on a concrete successful one-track bucket run. -/
theorem claim_C3_move_ordering_witness :
    ∃ front back,
      ([ApiAction.playlistsPage 0,
        ApiAction.createPlaylist "me" "23 Junk Drawer"
          "Junk drawer of tracks added in 23 from Source",
        ApiAction.addTracks "pl0" ["spotify:a"],
        ApiAction.removeTracks "src" ["spotify:a"],
        ApiAction.updateDescription "pl0"
          "Junk drawer of tracks added in 23 from Source. Last run TS moved 1 tracks."] :
            List ApiAction) = [] ++ front ++ back ∧
      (∀ a ∈ front, ∀ pid c, a ≠ ApiAction.removeTracks pid c) ∧
      (∀ a ∈ back, ∀ pid c, a ≠ ApiAction.addTracks pid c) ∧
      (∀ pid c, ApiAction.removeTracks pid c ∈ back →
        pid = "src" ∧ ∃ tid, ∀ ch ∈ chunked ([("spotify:a",
          (⟨2023, 5, 1⟩ : Date))].map Prod.fst) 100,
          ApiAction.addTracks tid ch ∈ front) ∧
      (∀ tid,
        (∀ ch ∈ chunked ([("spotify:a", (⟨2023, 5, 1⟩ : Date))].map Prod.fst) 100,
          ApiAction.addTracks tid ch ∈ front ++ back) →
        (∀ pid c, ApiAction.removeTracks pid c ∉ front ++ back) →
        ∀ u ∈ [("spotify:a", (⟨2023, 5, 1⟩ : Date))].map Prod.fst,
          SpotifyState.plHasUri ⟨"me", [⟨"src", "Source", "me", "",
            [⟨some "2023-05-01T10:00:00Z", some ⟨some "spotify:a"⟩⟩], false⟩], 0⟩ "src" u = true →
          SpotifyState.plHasUri (⟨"me",
            [⟨"src", "Source", "me", "", [], false⟩,
             ⟨"pl0", "23 Junk Drawer", "me",
               "Junk drawer of tracks added in 23 from Source. Last run TS moved 1 tracks.",
               [⟨none, some ⟨some "spotify:a"⟩⟩], false⟩], 1⟩ : SpotifyState) "src" u = true ∧
          SpotifyState.plHasUri (⟨"me",
            [⟨"src", "Source", "me", "", [], false⟩,
             ⟨"pl0", "23 Junk Drawer", "me",
               "Junk drawer of tracks added in 23 from Source. Last run TS moved 1 tracks.",
               [⟨none, some ⟨some "spotify:a"⟩⟩], false⟩], 1⟩ : SpotifyState) tid u = true) :=
  claim_C3_move_ordering (fun _ => true) "me" "src" "Source" "TS" "23"
    [("spotify:a", ⟨2023, 5, 1⟩)]
    ⟨"me", [⟨"src", "Source", "me", "",
      [⟨some "2023-05-01T10:00:00Z", some ⟨some "spotify:a"⟩⟩], false⟩], 0⟩ [] (.ok 1)
    ⟨"me", [⟨"src", "Source", "me", "", [], false⟩,
      ⟨"pl0", "23 Junk Drawer", "me",
        "Junk drawer of tracks added in 23 from Source. Last run TS moved 1 tracks.",
        [⟨none, some ⟨some "spotify:a"⟩⟩], false⟩], 1⟩
    [ApiAction.playlistsPage 0,
     ApiAction.createPlaylist "me" "23 Junk Drawer"
       "Junk drawer of tracks added in 23 from Source",
     ApiAction.addTracks "pl0" ["spotify:a"],
     ApiAction.removeTracks "src" ["spotify:a"],
     ApiAction.updateDescription "pl0"
       "Junk drawer of tracks added in 23 from Source. Last run TS moved 1 tracks."]
    (by rfl)

/-! ### Theorems: failure atomicity across buckets (C4) -/

/-- C4: if the add-tracks batch call fails while processing the second
bucket after the first bucket's ensure/add/remove/describe steps fully
succeeded, then the whole move phase aborts with that fatal error, the
trace after the first bucket's description update holds no further
description update (so neither the failed bucket's destination nor the
source gets one — the source update is sequenced after the bucket loop),
and the first bucket's moves remain committed: its tracks are still in
its destination and still absent from the source.  The two destination
ids are assumed distinct from the source id, which holds whenever the
source playlist is not itself named like a Junk Drawer. -/
theorem claim_C4_second_bucket_failure (oracle : ApiAction → Bool)
    (userId sourceId sourceName runTs k1 k2 : String)
    (t1 t2 : List (String × Date))
    (s0 : SpotifyState) (tr0 : List ApiAction)
    (tid1 : String) (sA : SpotifyState) (trA : List ApiAction)
    (sB : SpotifyState) (trB : List ApiAction)
    (sC : SpotifyState) (trC : List ApiAction)
    (sD : SpotifyState) (trD : List ApiAction)
    (tid2 : String) (sE2 : SpotifyState) (trE2 : List ApiAction)
    (e : String) (s3 : SpotifyState) (tr3 : List ApiAction)
    (h1 : ensure_junk_drawer_playlist oracle userId (bucketPlaylistName k1)
      (bucketBaseDescription k1 sourceName) (s0, tr0) = (.ok tid1, (sA, trA)))
    (h2 : add_tracks_to_playlist oracle tid1 (t1.map Prod.fst) (sA, trA) = (.ok (), (sB, trB)))
    (h3 : remove_tracks_from_playlist oracle sourceId (t1.map Prod.fst) (sB, trB) =
      (.ok (), (sC, trC)))
    (h4 : update_playlist_description oracle tid1
      (bucketRunDescription k1 sourceName runTs (t1.map Prod.fst).length) (sC, trC) =
      (.ok (), (sD, trD)))
    (h5 : ensure_junk_drawer_playlist oracle userId (bucketPlaylistName k2)
      (bucketBaseDescription k2 sourceName) (sD, trD) = (.ok tid2, (sE2, trE2)))
    (h6 : add_tracks_to_playlist oracle tid2 (t2.map Prod.fst) (sE2, trE2) =
      (.error e, (s3, tr3)))
    (hne1 : tid1 ≠ sourceId) (hne2 : tid2 ≠ sourceId) :
    moveAndAnnotate oracle userId sourceId sourceName runTs [(k1, t1), (k2, t2)] (s0, tr0) =
      (.error e, (s3, tr3)) ∧
    (∃ post, tr3 = trD ++ post ∧ ∀ pid d, ApiAction.updateDescription pid d ∉ post) ∧
    (∀ u ∈ t1.map Prod.fst, s3.plHasUri tid1 u = true) ∧
    (∀ u ∈ t1.map Prod.fst, s3.plHasUri sourceId u = false) := by
  -- the run aborts with the failure of the second bucket's add phase
  have hb1 : processBucket oracle userId sourceId sourceName runTs k1 t1 (s0, tr0) =
      (.ok (t1.map Prod.fst).length, (sD, trD)) := by
    unfold processBucket
    rw [M_bind_ok _ _ _ _ _ h1, M_bind_ok _ _ _ _ _ h2, M_bind_ok _ _ _ _ _ h3,
      M_bind_ok _ _ _ _ _ h4, M_pure_eq]
  have hb2 : processBucket oracle userId sourceId sourceName runTs k2 t2 (sD, trD) =
      (.error e, (s3, tr3)) := by
    unfold processBucket
    rw [M_bind_ok _ _ _ _ _ h5, M_bind_error _ _ _ _ _ h6]
  have hpb : processBuckets oracle userId sourceId sourceName runTs [(k1, t1), (k2, t2)] 0
      (s0, tr0) = (.error e, (s3, tr3)) := by
    show (processBucket oracle userId sourceId sourceName runTs k1 t1 >>= fun n =>
      processBuckets oracle userId sourceId sourceName runTs [(k2, t2)] (0 + n)) (s0, tr0) = _
    rw [M_bind_ok _ _ _ _ _ hb1]
    show (processBucket oracle userId sourceId sourceName runTs k2 t2 >>= fun n =>
      processBuckets oracle userId sourceId sourceName runTs []
        (0 + (t1.map Prod.fst).length + n)) (sD, trD) = _
    rw [M_bind_error _ _ _ _ _ hb2]
  -- decompose the failing second-bucket steps
  obtain ⟨resE, s_E, actsE, heqE2, hacts2, hvals2, hhas2, hok2⟩ :=
    ensure_shape oracle userId (bucketPlaylistName k2) (bucketBaseDescription k2 sourceName)
      sD trD
  have hcomb2 : (Except.ok tid2, (sE2, trE2)) =
      (resE, (s_E, trD ++ actsE)) := h5.symm.trans heqE2
  obtain ⟨hres2, hsE2, htrE2⟩ := pair_eq_inv hcomb2
  obtain ⟨kx, hkx, heqAx⟩ :=
    addChunks_shape oracle tid2 (chunked (t2.map Prod.fst) 100) sE2 trE2
  have hcomb3 : (Except.error e, (s3, tr3)) =
      ((if kx = (chunked (t2.map Prod.fst) 100).length then Except.ok ()
        else Except.error "Spotify API error"),
       (stateAddUris sE2 tid2 (((chunked (t2.map Prod.fst) 100).take kx).flatten),
        trE2 ++ ((chunked (t2.map Prod.fst) 100).take kx).map (ApiAction.addTracks tid2))) :=
    h6.symm.trans heqAx
  obtain ⟨hres3, hs3, htr3⟩ := pair_eq_inv hcomb3
  -- decompose the successful first-bucket steps
  obtain ⟨resE1, s_E1, actsE1, heqE1, hacts1, hvals1, hhas1, hok1⟩ :=
    ensure_shape oracle userId (bucketPlaylistName k1) (bucketBaseDescription k1 sourceName)
      s0 tr0
  have hcomb1 : (Except.ok tid1, (sA, trA)) = (resE1, (s_E1, tr0 ++ actsE1)) :=
    h1.symm.trans heqE1
  obtain ⟨hres1, hsA, htrA⟩ := pair_eq_inv hcomb1
  obtain ⟨ka, hka, heqA1⟩ :=
    addChunks_shape oracle tid1 (chunked (t1.map Prod.fst) 100) sA trA
  have hcombA : (Except.ok (), (sB, trB)) =
      ((if ka = (chunked (t1.map Prod.fst) 100).length then Except.ok ()
        else Except.error "Spotify API error"),
       (stateAddUris sA tid1 (((chunked (t1.map Prod.fst) 100).take ka).flatten),
        trA ++ ((chunked (t1.map Prod.fst) 100).take ka).map (ApiAction.addTracks tid1))) :=
    h2.symm.trans heqA1
  obtain ⟨hresA, hsB, htrB⟩ := pair_eq_inv hcombA
  have hkafull : ka = (chunked (t1.map Prod.fst) 100).length := by
    by_contra hc
    rw [if_neg hc] at hresA
    cases hresA
  subst hkafull
  rw [List.take_length] at hsB
  obtain ⟨kr, hkr, heqR1⟩ :=
    removeChunks_shape oracle sourceId (chunked (t1.map Prod.fst) 100) sB trB
  have hcombR : (Except.ok (), (sC, trC)) =
      ((if kr = (chunked (t1.map Prod.fst) 100).length then Except.ok ()
        else Except.error "Spotify API error"),
       (stateRemoveUris sB sourceId (((chunked (t1.map Prod.fst) 100).take kr).flatten),
        trB ++ ((chunked (t1.map Prod.fst) 100).take kr).map (ApiAction.removeTracks sourceId))) :=
    h3.symm.trans heqR1
  obtain ⟨hresR, hsC, htrC⟩ := pair_eq_inv hcombR
  have hkrfull : kr = (chunked (t1.map Prod.fst) 100).length := by
    by_contra hc
    rw [if_neg hc] at hresR
    cases hresR
  subst hkrfull
  rw [List.take_length] at hsC
  -- the description update of bucket 1 must have succeeded
  have hsD : sD = stateSetDescription sC tid1
      (bucketRunDescription k1 sourceName runTs (t1.map Prod.fst).length) := by
    cases ho : oracle (ApiAction.updateDescription tid1
        (bucketRunDescription k1 sourceName runTs (t1.map Prod.fst).length)) with
    | false =>
      unfold update_playlist_description at h4
      rw [spotify_request_false _ _ _ _ ho] at h4
      cases (pair_eq_inv h4).1
    | true =>
      unfold update_playlist_description at h4
      rw [spotify_request_true _ _ _ _ ho] at h4
      obtain ⟨_, hsd, _⟩ := pair_eq_inv h4
      exact hsd.symm
  refine ⟨?_, ?_, ?_, ?_⟩
  · unfold moveAndAnnotate
    rw [M_bind_error _ _ _ _ _ hpb]
  · refine ⟨actsE ++ ((chunked (t2.map Prod.fst) 100).take kx).map (ApiAction.addTracks tid2),
      ?_, ?_⟩
    · rw [htr3, htrE2]
      simp [List.append_assoc]
    · intro pid d hmem
      rcases List.mem_append.mp hmem with h | h
      · rcases hacts2 _ h with ⟨o, ho⟩ | ho <;> cases ho
      · obtain ⟨ch, _, hch⟩ := List.mem_map.mp h
        cases hch
  · intro u hu
    have hinB : sB.plHasUri tid1 u = true := by
      rw [hsB]
      apply plHasUri_addUris_self
      · rw [hsA]
        exact hok1 tid1 hres1.symm
      · rw [chunked_flatten_100]
        exact hu
    have hinC : sC.plHasUri tid1 u = true := by
      rw [hsC, plHasUri_removeUris_other _ _ _ _ _ hne1]
      exact hinB
    have hinD : sD.plHasUri tid1 u = true := by
      rw [hsD, plHasUri_setDesc]
      exact hinC
    have hinE : sE2.plHasUri tid1 u = true := by
      rw [hsE2, hvals2]
      exact hinD
    rw [hs3]
    apply plHasUri_addUris_mono
    exact hinE
  · intro u hu
    have houtC : sC.plHasUri sourceId u = false := by
      rw [hsC]
      apply plHasUri_removeUris_self
      rw [chunked_flatten_100]
      exact hu
    have houtD : sD.plHasUri sourceId u = false := by
      rw [hsD, plHasUri_setDesc]
      exact houtC
    have houtE : sE2.plHasUri sourceId u = false := by
      rw [hsE2, hvals2]
      exact houtD
    rw [hs3, plHasUri_addUris_other _ _ _ _ _ (fun h => hne2 h.symm)]
    exact houtE

/-- Witness for C4 on a concrete two-bucket run whose second add fails. -/
theorem claim_C4_second_bucket_failure_witness :
    moveAndAnnotate (fun a => decide (a ≠ ApiAction.addTracks "pl1" ["spotify:b"]))
        "me" "src" "Source" "TS"
        [("23", [("spotify:a", ⟨2023, 5, 1⟩)]), ("24", [("spotify:b", ⟨2024, 6, 2⟩)])]
        ((⟨"me", [⟨"src", "Source", "me", "",
          [⟨some "2023-05-01T10:00:00Z", some ⟨some "spotify:a"⟩⟩,
           ⟨some "2024-06-02T10:00:00Z", some ⟨some "spotify:b"⟩⟩], false⟩], 0⟩ :
            SpotifyState), []) =
      (.error "Spotify API error",
       ((⟨"me", [⟨"src", "Source", "me", "",
            [⟨some "2024-06-02T10:00:00Z", some ⟨some "spotify:b"⟩⟩], false⟩,
          ⟨"pl0", "23 Junk Drawer", "me",
            "Junk drawer of tracks added in 23 from Source. Last run TS moved 1 tracks.",
            [⟨none, some ⟨some "spotify:a"⟩⟩], false⟩,
          ⟨"pl1", "24 Junk Drawer", "me",
            "Junk drawer of tracks added in 24 from Source", [], false⟩], 2⟩ : SpotifyState),
        [ApiAction.playlistsPage 0,
         ApiAction.createPlaylist "me" "23 Junk Drawer"
           "Junk drawer of tracks added in 23 from Source",
         ApiAction.addTracks "pl0" ["spotify:a"],
         ApiAction.removeTracks "src" ["spotify:a"],
         ApiAction.updateDescription "pl0"
           "Junk drawer of tracks added in 23 from Source. Last run TS moved 1 tracks.",
         ApiAction.playlistsPage 0,
         ApiAction.createPlaylist "me" "24 Junk Drawer"
           "Junk drawer of tracks added in 24 from Source"])) ∧
    (∃ post,
      ([ApiAction.playlistsPage 0,
        ApiAction.createPlaylist "me" "23 Junk Drawer"
          "Junk drawer of tracks added in 23 from Source",
        ApiAction.addTracks "pl0" ["spotify:a"],
        ApiAction.removeTracks "src" ["spotify:a"],
        ApiAction.updateDescription "pl0"
          "Junk drawer of tracks added in 23 from Source. Last run TS moved 1 tracks.",
        ApiAction.playlistsPage 0,
        ApiAction.createPlaylist "me" "24 Junk Drawer"
          "Junk drawer of tracks added in 24 from Source"] : List ApiAction) =
        [ApiAction.playlistsPage 0,
         ApiAction.createPlaylist "me" "23 Junk Drawer"
           "Junk drawer of tracks added in 23 from Source",
         ApiAction.addTracks "pl0" ["spotify:a"],
         ApiAction.removeTracks "src" ["spotify:a"],
         ApiAction.updateDescription "pl0"
           "Junk drawer of tracks added in 23 from Source. Last run TS moved 1 tracks."] ++ post ∧
      ∀ pid d, ApiAction.updateDescription pid d ∉ post) ∧
    (∀ u ∈ [("spotify:a", (⟨2023, 5, 1⟩ : Date))].map Prod.fst,
      SpotifyState.plHasUri (⟨"me", [⟨"src", "Source", "me", "",
          [⟨some "2024-06-02T10:00:00Z", some ⟨some "spotify:b"⟩⟩], false⟩,
        ⟨"pl0", "23 Junk Drawer", "me",
          "Junk drawer of tracks added in 23 from Source. Last run TS moved 1 tracks.",
          [⟨none, some ⟨some "spotify:a"⟩⟩], false⟩,
        ⟨"pl1", "24 Junk Drawer", "me",
          "Junk drawer of tracks added in 24 from Source", [], false⟩], 2⟩ : SpotifyState)
        "pl0" u = true) ∧
    (∀ u ∈ [("spotify:a", (⟨2023, 5, 1⟩ : Date))].map Prod.fst,
      SpotifyState.plHasUri (⟨"me", [⟨"src", "Source", "me", "",
          [⟨some "2024-06-02T10:00:00Z", some ⟨some "spotify:b"⟩⟩], false⟩,
        ⟨"pl0", "23 Junk Drawer", "me",
          "Junk drawer of tracks added in 23 from Source. Last run TS moved 1 tracks.",
          [⟨none, some ⟨some "spotify:a"⟩⟩], false⟩,
        ⟨"pl1", "24 Junk Drawer", "me",
          "Junk drawer of tracks added in 24 from Source", [], false⟩], 2⟩ : SpotifyState)
        "src" u = false) :=
  claim_C4_second_bucket_failure
    (fun a => decide (a ≠ ApiAction.addTracks "pl1" ["spotify:b"]))
    "me" "src" "Source" "TS" "23" "24"
    [("spotify:a", ⟨2023, 5, 1⟩)] [("spotify:b", ⟨2024, 6, 2⟩)]
    ⟨"me", [⟨"src", "Source", "me", "",
      [⟨some "2023-05-01T10:00:00Z", some ⟨some "spotify:a"⟩⟩,
       ⟨some "2024-06-02T10:00:00Z", some ⟨some "spotify:b"⟩⟩], false⟩], 0⟩ []
    "pl0" _ _ _ _ _ _ _ _ "pl1" _ _ "Spotify API error" _ _
    (by rfl) (by rfl) (by rfl) (by rfl) (by rfl) (by rfl)
    (by decide) (by decide)

/-! ### Theorems: configuration validation (C9) -/

theorem require_env_error (env : String → Option String) (keys : List String)
    (hmiss : keys.filter (fun k => !truthyStr (env k)) ≠ []) :
    require_env env keys = .error (missingEnvMessage (keys.filter (fun k => !truthyStr (env k)))) := by
  unfold require_env
  show (if (keys.filter (fun k => !truthyStr (env k))).isEmpty then Except.ok ()
    else Except.error (missingEnvMessage (keys.filter (fun k => !truthyStr (env k))))) = _
  rw [if_neg (fun h => hmiss (List.isEmpty_iff.mp h))]

theorem require_env_ok (env : String → Option String) (keys : List String)
    (hmiss : keys.filter (fun k => !truthyStr (env k)) = []) :
    require_env env keys = .ok () := by
  unfold require_env
  show (if (keys.filter (fun k => !truthyStr (env k))).isEmpty then Except.ok ()
    else Except.error (missingEnvMessage (keys.filter (fun k => !truthyStr (env k))))) = _
  rw [if_pos (List.isEmpty_iff.mpr hmiss)]

/-- C9: before any API request is issued (the run state is returned
untouched, so no request ran), every missing required configuration key
is reported together in one fatal error built from the full list of
missing keys; a duration value that does not parse as an integer or is
negative is a fatal error; and a parsed non-negative value — in
particular 0 — is accepted into the configuration. -/
theorem claim_C9_config_validation (env : String → Option String) (oracle : ApiAction → Bool)
    (today : Date) (runTs : String) (rs : RunState) :
    (requiredKeys.filter (fun k => !truthyStr (env k)) ≠ [] →
      junk_mover_main env oracle today runTs rs =
        (.error (missingEnvMessage (requiredKeys.filter (fun k => !truthyStr (env k)))), rs)) ∧
    (requiredKeys.filter (fun k => !truthyStr (env k)) = [] →
      parsePyInt ((env "JUNK_MOVER_DURATION_DAYS").getD "") = none →
      junk_mover_main env oracle today runTs rs =
        (.error "JUNK_MOVER_DURATION_DAYS must be an integer", rs)) ∧
    (∀ v : Int, requiredKeys.filter (fun k => !truthyStr (env k)) = [] →
      parsePyInt ((env "JUNK_MOVER_DURATION_DAYS").getD "") = some v → v < 0 →
      junk_mover_main env oracle today runTs rs =
        (.error "JUNK_MOVER_DURATION_DAYS cannot be negative; use 0 for today.", rs)) ∧
    (∀ v : Int, requiredKeys.filter (fun k => !truthyStr (env k)) = [] →
      parsePyInt ((env "JUNK_MOVER_DURATION_DAYS").getD "") = some v → 0 ≤ v →
      ∃ cfg, validateConfig env = .ok cfg ∧ cfg.durationDays = v.toNat ∧
        cfg.sourcePlaylistName = (env "JUNK_MOVER_SOURCE_PLAYLIST").getD "") := by
  refine ⟨?_, ?_, ?_, ?_⟩
  · intro hmiss
    have hval : validateConfig env =
        .error (missingEnvMessage (requiredKeys.filter (fun k => !truthyStr (env k)))) := by
      unfold validateConfig
      rw [require_env_error env requiredKeys hmiss]
    unfold junk_mover_main
    rw [hval]
  · intro hmiss hparse
    have hval : validateConfig env = .error "JUNK_MOVER_DURATION_DAYS must be an integer" := by
      unfold validateConfig
      rw [require_env_ok env requiredKeys hmiss]
      simp only [hparse]
    unfold junk_mover_main
    rw [hval]
  · intro v hmiss hparse hneg
    have hval : validateConfig env =
        .error "JUNK_MOVER_DURATION_DAYS cannot be negative; use 0 for today." := by
      unfold validateConfig
      rw [require_env_ok env requiredKeys hmiss]
      simp only [hparse]
      rw [if_pos hneg]
    unfold junk_mover_main
    rw [hval]
  · intro v hmiss hparse hnonneg
    refine ⟨{ sourcePlaylistName := (env "JUNK_MOVER_SOURCE_PLAYLIST").getD ""
              durationDays := v.toNat }, ?_, rfl, rfl⟩
    unfold validateConfig
    rw [require_env_ok env requiredKeys hmiss]
    simp only [hparse]
    rw [if_neg (by omega)]

/-- Witness for C9 on four concrete environments. -/
theorem claim_C9_config_validation_witness :
    (junk_mover_main (fun k => if k = "JUNK_MOVER_DURATION_DAYS" then some "0" else none)
        (fun _ => true) ⟨2025, 10, 12⟩ "TS"
        ((⟨"me", [], 0⟩ : SpotifyState), []) =
      (.error (missingEnvMessage ["JUNK_MOVER_CLIENT_ID", "JUNK_MOVER_CLIENT_SECRET",
        "JUNK_MOVER_REFRESH_TOKEN", "JUNK_MOVER_SOURCE_PLAYLIST"]),
       ((⟨"me", [], 0⟩ : SpotifyState), []))) ∧
    (junk_mover_main (fun _ => some "abc") (fun _ => true) ⟨2025, 10, 12⟩ "TS"
        ((⟨"me", [], 0⟩ : SpotifyState), []) =
      (.error "JUNK_MOVER_DURATION_DAYS must be an integer",
       ((⟨"me", [], 0⟩ : SpotifyState), []))) ∧
    (junk_mover_main (fun k => if k = "JUNK_MOVER_DURATION_DAYS" then some "-3" else some "x")
        (fun _ => true) ⟨2025, 10, 12⟩ "TS" ((⟨"me", [], 0⟩ : SpotifyState), []) =
      (.error "JUNK_MOVER_DURATION_DAYS cannot be negative; use 0 for today.",
       ((⟨"me", [], 0⟩ : SpotifyState), []))) ∧
    (∃ cfg, validateConfig
        (fun k => if k = "JUNK_MOVER_DURATION_DAYS" then some "0" else some "x") = .ok cfg ∧
      cfg.durationDays = (0 : Int).toNat ∧ cfg.sourcePlaylistName =
        ((fun k : String => if k = "JUNK_MOVER_DURATION_DAYS" then some "0" else some "x")
          "JUNK_MOVER_SOURCE_PLAYLIST").getD "") :=
  ⟨(claim_C9_config_validation
      (fun k => if k = "JUNK_MOVER_DURATION_DAYS" then some "0" else none)
      (fun _ => true) ⟨2025, 10, 12⟩ "TS" ((⟨"me", [], 0⟩ : SpotifyState), [])).1
      (by decide),
   (claim_C9_config_validation (fun _ => some "abc")
      (fun _ => true) ⟨2025, 10, 12⟩ "TS" ((⟨"me", [], 0⟩ : SpotifyState), [])).2.1
      (by decide) (by decide),
   (claim_C9_config_validation
      (fun k => if k = "JUNK_MOVER_DURATION_DAYS" then some "-3" else some "x")
      (fun _ => true) ⟨2025, 10, 12⟩ "TS" ((⟨"me", [], 0⟩ : SpotifyState), [])).2.2.1
      (-3) (by decide) (by decide) (by decide),
   (claim_C9_config_validation
      (fun k => if k = "JUNK_MOVER_DURATION_DAYS" then some "0" else some "x")
      (fun _ => true) ⟨2025, 10, 12⟩ "TS" ((⟨"me", [], 0⟩ : SpotifyState), [])).2.2.2
      0 (by decide) (by decide) (by decide)⟩
